import Mathlib

/-!
Verification development for the Device Counter application (`src/app.py`).

The Python source is shallowly embedded: pandas cells become the inductive
type `Cell` (`blank` models NaN / missing), a pandas DataFrame becomes
`Table` (a list of column labels plus a list of rows), and the sheet
processing function `process_flexible_sheet` becomes a Lean function of the
same name returning `Option Table` (`none` models an uncaught Python
exception, which can arise only from `df.iloc[0]` on an empty frame).
Imperative cell mutation (`df.at[...] = v`) becomes explicit state passing:
each loop of the source is a `List.foldl` over the same data, writing cells
with `setCell`.
-/

/-- A spreadsheet cell as seen by pandas after `pd.ExcelFile.parse`:
missing / NaN (`blank`), a string, or an integer. -/
inductive Cell where
  | blank : Cell
  | str : String → Cell
  | int : Int → Cell
deriving DecidableEq, Repr

/-- A pandas DataFrame: column labels (as their `str()` forms) and rows of
cells; row `i`, column `j` is `rows[i][j]`, aligned with `cols[j]`. -/
structure Table where
  cols : List String
  rows : List (List Cell)
deriving DecidableEq, Repr

/-- Does the character list start with `p`? -/
def chStarts : List Char → List Char → Bool
  | [], _ => true
  | _ :: _, [] => false
  | p :: ps, c :: cs => p == c && chStarts ps cs

/-- Does `p` occur as a contiguous segment of the character list? -/
def chSub (p : List Char) : List Char → Bool
  | [] => p.isEmpty
  | c :: cs => chStarts p (c :: cs) || chSub p cs

/-- Python's substring test `pat in s`. -/
def strContains (s pat : String) : Bool :=
  chSub pat.toList s.toList

/-- Whitespace as stripped by Python's `str.strip()`. -/
def isWsChar (c : Char) : Bool :=
  c == ' ' || c == '\t' || c == '\n' || c == '\r'

/-- Drop leading whitespace characters. -/
def dropWhileWs : List Char → List Char
  | [] => []
  | c :: cs => if isWsChar c then dropWhileWs cs else c :: cs

/-- Python's `str.strip()`: remove leading and trailing whitespace. -/
def trimStr (s : String) : String :=
  String.mk (dropWhileWs (dropWhileWs s.toList.reverse).reverse)

/-- Python's `str.lower()` (ASCII case mapping, which covers the inputs the
application's keyword rules inspect). -/
def lowerStr (s : String) : String :=
  String.mk (s.toList.map Char.toLower)

/-- Python's `str.startswith`. -/
def strStarts (s pat : String) : Bool :=
  chStarts pat.toList s.toList

/-- Python's `str()` of a cell value: NaN prints as `"nan"`, integers via
decimal digits, strings unchanged. -/
def cellStr : Cell → String
  | Cell.blank => "nan"
  | Cell.str s => s
  | Cell.int n => toString n

/-- The normalization in `classify_device_type` (src/app.py line 22):
`device.strip().lower().replace('-', '').replace('_', '').replace(' ', '')`. -/
def normDevice (device : String) : String :=
  String.mk (((lowerStr (trimStr device)).toList).filter
    (fun c => !(c == '-' || c == '_' || c == ' ')))

/-- `classify_device_type` (src/app.py lines 12-48).  A non-string cell
returns `none` (the `isinstance` guard).  The source tests
`re.search(r'\bicabm\b', norm) or 'icabm' in norm`: a regex match is in
particular a substring occurrence, so the disjunction is embedded as the
plain substring test, and likewise for `icabh`. -/
def classify_device_type (device : Cell) : Option String :=
  match device with
  | Cell.str s =>
    let norm := normDevice s
    if strContains norm "beame" || strContains norm "blame" then some "BEAME"
    else if strContains norm "baci" || strContains norm "bai03" then some "BAC-I"
    else if strContains norm "icabm" then some "I-CAB M"
    else if strContains norm "icabh" then some "I-CAB H"
    else if strContains norm "combo" && !(strContains norm "baci") then some "I-CAB"
    else if strContains norm "icab" then some "I-CAB"
    else none
  | _ => none

/-- Index of the first column with the given label (pandas label lookup). -/
def colIdx? (nm : String) : List String → Option Nat
  | [] => none
  | c :: cs => if c = nm then some 0 else (colIdx? nm cs).map (· + 1)

/-- Value of the labelled column in one row (`row[label]`); out-of-range or
missing labels give `blank`. -/
def rowGet (cols : List String) (r : List Cell) (nm : String) : Cell :=
  match colIdx? nm cols with
  | some ci => r.getD ci Cell.blank
  | none => Cell.blank

/-- `df.at[ri, nm]` as a read. -/
def getCell (t : Table) (ri : Nat) (nm : String) : Cell :=
  rowGet t.cols (t.rows.getD ri []) nm

/-- `df.at[ri, nm] = v`.  Every write site in the source addresses a column
that exists at that point, so the missing-label case leaves the table
unchanged. -/
def setCell (t : Table) (ri : Nat) (nm : String) (v : Cell) : Table :=
  match colIdx? nm t.cols with
  | some ci => { t with rows := t.rows.set ri ((t.rows.getD ri []).set ci v) }
  | none => t

/-- `df[nm] = v` with one constant value: overwrite the column if the label
exists, else append a new column. -/
def setColConst (t : Table) (nm : String) (v : Cell) : Table :=
  match colIdx? nm t.cols with
  | some ci => { t with rows := t.rows.map (fun r => r.set ci v) }
  | none => { cols := t.cols ++ [nm], rows := t.rows.map (fun r => r ++ [v]) }

/-- `df[nm] = series`: overwrite or append the column with one value per
row. -/
def setColList (t : Table) (nm : String) (vals : List Cell) : Table :=
  match colIdx? nm t.cols with
  | some ci => { t with rows := List.zipWith (fun r v => r.set ci v) t.rows vals }
  | none => { cols := t.cols ++ [nm], rows := List.zipWith (fun r v => r ++ [v]) t.rows vals }

/-- `df[nm]` as a list of cell values, one per row. -/
def getColList (t : Table) (nm : String) : List Cell :=
  t.rows.map (fun r => rowGet t.cols r nm)

/-- `df[names]`: project (and reorder) to the given column labels. -/
def selectCols (t : Table) (names : List String) : Table :=
  { cols := names, rows := t.rows.map (fun r => names.map (fun nm => rowGet t.cols r nm)) }

/-- Keep flags for the column-cleanup step (src/app.py lines 81-82): keep a
column iff its label was not seen earlier (`~df.columns.duplicated()`) and
its lowercased label is neither exactly `nan` nor starts with `unnamed`. -/
def keepFlags (seen : List String) : List String → List Bool
  | [] => []
  | c :: cs =>
    (!(seen.contains c) && !(lowerStr c == "nan" || strStarts (lowerStr c) "unnamed"))
      :: keepFlags (c :: seen) cs

/-- Keep exactly the entries whose flag is `true`. -/
def applyMask {α : Type} : List Bool → List α → List α
  | true :: fs, x :: xs => x :: applyMask fs xs
  | false :: fs, _ :: xs => applyMask fs xs
  | _, _ => []

/-- Header detection and column cleanup (src/app.py lines 72-82), given the
first data row `r0`: if any cell of `r0`, as a lowercased string, contains
`customer`, `device` or `qty`, promote `r0` to the column labels (stripped)
and drop it from the data; otherwise strip the existing labels.  Then drop
duplicate, `nan` and `unnamed` columns. -/
def headerClean (t : Table) (r0 : List Cell) : Table :=
  let useFirst := r0.any (fun c =>
    let s := lowerStr (cellStr c)
    strContains s "customer" || strContains s "device" || strContains s "qty")
  let t1 : Table :=
    if useFirst then
      { cols := r0.map (fun c => trimStr (cellStr c)), rows := t.rows.tail }
    else
      { cols := t.cols.map trimStr, rows := t.rows }
  let flags := keepFlags [] t1.cols
  { cols := applyMask flags t1.cols, rows := t1.rows.map (fun r => applyMask flags r) }

/-- Role resolution (src/app.py lines 85-98): one pass over the column
labels; a label containing `customer` (case-insensitively, after stripping)
takes the customer role, else one containing `device` the device role, else
one containing `qty` the qty role.  A later matching label overwrites an
earlier one. -/
def roleStep (acc : Option String × Option String × Option String) (col : String) :
    Option String × Option String × Option String :=
  let label := lowerStr (trimStr col)
  if strContains label "customer" then (some col, acc.2.1, acc.2.2)
  else if strContains label "device" then (acc.1, some col, acc.2.2)
  else if strContains label "qty" then (acc.1, acc.2.1, some col)
  else acc

/-- Role resolution over all column labels (src/app.py lines 85-98). -/
def resolveRoles (cols : List String) : Option String × Option String × Option String :=
  cols.foldl roleStep (none, none, none)

/-- The `all(col_map.values())` test (src/app.py line 100): every resolved
label is a column name containing its role substring, hence non-empty, so
Python truthiness of the dict values coincides with `isSome`. -/
def rolesResolved (m : Option String × Option String × Option String) : Bool :=
  m.1.isSome && m.2.1.isSome && m.2.2.isSome

/-- `ffill` on one column: a `blank` (NaN) cell inherits the nearest
preceding non-blank value, carried in `last`. -/
def ffillGo (last : Option Cell) : List Cell → List Cell
  | [] => []
  | Cell.blank :: cs =>
    (match last with
     | some v => v :: ffillGo (some v) cs
     | none => Cell.blank :: ffillGo none cs)
  | Cell.str s :: cs => Cell.str s :: ffillGo (some (Cell.str s)) cs
  | Cell.int n :: cs => Cell.int n :: ffillGo (some (Cell.int n)) cs

/-- The customer column of `t` after forward-fill (src/app.py line 104). -/
def ffilledCustomer (t : Table) (cu : String) : List Cell :=
  ffillGo none (getColList t cu)

/-- Value of a decimal digit list. -/
def digitsToNat (ds : List Char) : Nat :=
  ds.foldl (fun a c => a * 10 + (c.toNat - 48)) 0

/-- Python's `int(s)` on a string: optional surrounding whitespace, an
optional sign, then one or more digits; anything else raises (`none`). -/
def parsePyInt (s : String) : Option Int :=
  let core := (trimStr s).toList
  let signAndDigits : Int × List Char :=
    match core with
    | '+' :: r => (1, r)
    | '-' :: r => (-1, r)
    | r => (1, r)
  if !signAndDigits.2.isEmpty && signAndDigits.2.all Char.isDigit then
    some (signAndDigits.1 * (digitsToNat signAndDigits.2 : Int))
  else none

/-- The quantity coercion `int(qty)` under `try/except` (src/app.py lines
119-122): an integer cell is itself, a parseable string its value, anything
else 0. -/
def toIntPy : Cell → Int
  | Cell.int n => n
  | Cell.str s => (parsePyInt s).getD 0
  | Cell.blank => 0

/-- The five category columns, in the order the source creates and counts
them (src/app.py line 106). -/
def categories : List String := ["BAC-I", "I-CAB", "I-CAB H", "I-CAB M", "BEAME"]

/-- The distinct non-blank values of the forward-filled customer column:
the group keys of `df.groupby` (NaN keys are dropped).  The source iterates
the groups in sorted-key order; since each group is written independently
to its own rows, the resulting table does not depend on that order. -/
def aggKeys (t : Table) (cu : String) : List Cell :=
  ((ffilledCustomer t cu).filter (fun c => !(c == Cell.blank))).dedup

/-- The ascending list of ALL row indices whose forward-filled customer
value equals `k`. -/
def groupIdxsOf (filled : List Cell) (k : Cell) : List Nat :=
  (List.range filled.length).filter (fun i => filled.getD i Cell.blank == k)

/-- The groups of `df.groupby(customer)` (src/app.py line 110): each
non-blank key paired with the row indices whose forward-filled customer
equals it — pandas groups by value over the whole frame, not by contiguous
runs. -/
def aggGroups (t : Table) (cu : String) : List (Cell × List Nat) :=
  (aggKeys t cu).map (fun k => (k, groupIdxsOf (ffilledCustomer t cu) k))

/-- The per-category count of one group (src/app.py lines 113-126): sum the
coerced quantity of every group row whose device cell classifies to `cat`.
The source accumulates one dict over the rows; per category the result is
this fold. -/
def groupCount (cf : Cell → Option String) (devs qtys : List Cell)
    (idxs : List Nat) (cat : String) : Int :=
  idxs.foldl (fun acc i =>
    if cf (devs.getD i Cell.blank) = some cat then acc + toIntPy (qtys.getD i Cell.blank)
    else acc) 0

/-- Write one group's five category totals into the group's first row
(src/app.py lines 128-131). -/
def writeGroupTotals (cf : Cell → Option String) (devs qtys : List Cell)
    (t : Table) (g : Cell × List Nat) : Table :=
  categories.foldl (fun t2 cat =>
    setCell t2 (g.2.headD 0) cat (Cell.int (groupCount cf devs qtys g.2 cat))) t

/-- Blank the customer cell of every group row except the first
(src/app.py lines 133-138). -/
def blankGroup (cu : String) (t : Table) (g : Cell × List Nat) : Table :=
  if 1 < g.2.length then
    (g.2.tail).foldl (fun t2 i => setCell t2 i cu (Cell.str "")) t
  else t

/-- One step of the `NEW QTY` accumulation (src/app.py lines 144-150):
`total += int(val) if val not in [None, ''] else 0` under `try/except`.
An integer cell adds itself; a non-empty string adds its parsed value or,
when parsing raises, nothing; an empty string adds 0; a blank (NaN) cell
raises inside `int` and adds nothing. -/
def newQtyAdd (acc : Int) (val : Cell) : Int :=
  match val with
  | Cell.blank => acc
  | Cell.int n => acc + n
  | Cell.str s => if s = "" then acc else acc + (parsePyInt s).getD 0

/-- Write one group's `NEW QTY` (src/app.py lines 142-151): read the five
category cells of the group's first row from the current table and store
their sum there. -/
def writeNewQty (t : Table) (g : Cell × List Nat) : Table :=
  let fr := g.2.headD 0
  let total := categories.foldl (fun acc cat => newQtyAdd acc (getCell t fr cat)) 0
  setCell t fr "NEW QTY" (Cell.int total)

/-- The table after the first two mutation steps of the aggregation
(src/app.py lines 103-108): the customer column replaced by its
forward-fill, then the five category columns set to the empty string. -/
def aggBase (t : Table) (cu : String) : Table :=
  categories.foldl (fun tb c => setColConst tb c (Cell.str ""))
    (setColList t cu (ffilledCustomer t cu))

/-- The aggregation body of `process_flexible_sheet` (src/app.py lines
103-167), entered once all three roles resolved to the labels `cu`, `de`,
`q`: forward-fill the customer column, create the five category columns,
write each group's totals on its first row, blank non-first customer cells,
compute `NEW QTY`, and project the final column order. -/
def aggregate (cf : Cell → Option String) (t : Table) (cu de q : String) : Table :=
  let t3 := aggBase t cu
  let devs := getColList t3 de
  let qtys := getColList t3 q
  let groups := aggGroups t cu
  let t4 := groups.foldl (writeGroupTotals cf devs qtys) t3
  let t5 := groups.foldl (blankGroup cu) t4
  let t6 := setColConst t5 "NEW QTY" (Cell.str "")
  let t7 := groups.foldl writeNewQty t6
  selectCols t7 [cu, de, q, "NEW QTY", "I-CAB", "BAC-I", "I-CAB H", "I-CAB M", "BEAME"]

/-- `process_flexible_sheet` (src/app.py lines 64-167).  `none` models the
`IndexError` that `df.iloc[0]` raises on a frame with no rows; otherwise
the sheet is cleaned, the three roles are resolved, and either the
aggregation runs or (some role missing, lines 100-101) the cleaned table is
returned as is. -/
def process_flexible_sheet (cf : Cell → Option String) (t : Table) : Option Table :=
  match t.rows with
  | [] => none
  | r0 :: _ =>
    let t1 := headerClean t r0
    match resolveRoles t1.cols with
    | (some cu, some de, some q) => some (aggregate cf t1 cu de q)
    | _ => some t1

/-- `process_sheet_if_applicable` (src/app.py lines 170-176): the sheet
whose trimmed, lowercased name is `de/re/maintenance` passes through
untouched; every other sheet is processed. -/
def process_sheet_if_applicable (cf : Cell → Option String) (t : Table)
    (sheet_name : String) : Option Table :=
  if lowerStr (trimStr sheet_name) = "de/re/maintenance" then some t
  else process_flexible_sheet cf t

/-- Python truthiness of a cell value (`if device`): empty string and zero
are falsy; NaN is truthy. -/
def pyTruthy : Cell → Bool
  | Cell.blank => true
  | Cell.str s => !(s == "")
  | Cell.int n => !(n == 0)

/-- `Series.unique()`: distinct values in order of first occurrence. -/
def pandasUnique (l : List Cell) : List Cell :=
  l.foldl (fun acc c => if acc.contains c then acc else acc ++ [c]) []

/-- The unknown-device collection for one processed sheet (src/app.py lines
213-225): find the first column whose label contains `device`; for every
distinct non-NaN value of that column that is truthy and that the default
classifier leaves unresolved, record `device.strip()`.  Calling `.strip()`
on a non-string value raises `AttributeError`, modelled as `Except.error`. -/
def collectUnknownSheet (t : Table) : Except String (List String) :=
  match t.cols.find? (fun c => strContains (lowerStr c) "device") with
  | none => Except.ok []
  | some dc =>
    (pandasUnique ((getColList t dc).filter (fun c => !(c == Cell.blank)))).foldlM
      (fun acc v =>
        if pyTruthy v && (classify_device_type v).isNone then
          match v with
          | Cell.str s => Except.ok (acc ++ [trimStr s])
          | _ => Except.error "AttributeError: .strip on a non-string device value"
        else Except.ok acc) []

/-- Does this label take the customer role (`'customer' in col.strip().lower()`)? -/
def custMatch (col : String) : Bool :=
  strContains (lowerStr (trimStr col)) "customer"

/-- Does this label take the device role: not the customer role (the source
is an `elif` chain), and `'device'` occurs in it. -/
def devMatch (col : String) : Bool :=
  !custMatch col && strContains (lowerStr (trimStr col)) "device"

/-- Does this label take the qty role: neither of the earlier roles, and
`'qty'` occurs in it. -/
def qtyMatch (col : String) : Bool :=
  !custMatch col && !strContains (lowerStr (trimStr col)) "device" &&
    strContains (lowerStr (trimStr col)) "qty"

/-- The last element of the list satisfying `P`, if any: the column a role
ends up bound to, since each match overwrites the binding. -/
def lastMatch (P : String → Bool) : List String → Option String
  | [] => none
  | c :: cs =>
    match lastMatch P cs with
    | some x => some x
    | none => if P c then some c else none

/-- A cell is blank when it is NaN or the empty string (the value the
processing writes when it blanks a cell). -/
def isBlankCell (c : Cell) : Bool :=
  c == Cell.blank || c == Cell.str ""

/-- First-some choice on options, used to describe what a fold of
overwriting bindings returns. -/
def optOr {α : Type} : Option α → Option α → Option α
  | some x, _ => some x
  | none, b => b

/-- A sheet whose customer column holds two non-adjacent runs of the value
`A` separated by a `B` row. -/
def cexTable1 : Table :=
  { cols := ["Customer", "Device", "Qty"],
    rows := [[Cell.str "A", Cell.str "BAC-I", Cell.int 1],
             [Cell.str "B", Cell.str "ICAB", Cell.int 2],
             [Cell.str "A", Cell.str "BEAME", Cell.int 3]] }

/-- A sheet whose first data row is promoted to the header but which lacks
a qty column, so its roles cannot all resolve. -/
def cexTable2 : Table :=
  { cols := ["A", "B"], rows := [[Cell.str "Customer", Cell.str "Device"]] }

/-- A sheet whose customer cells hold the empty string (a non-NaN value, so
it survives forward-fill and forms a pandas group of its own). -/
def cexTable5 : Table :=
  { cols := ["Customer", "Device", "Qty"],
    rows := [[Cell.str "", Cell.str "BEAME", Cell.int 1],
             [Cell.str "", Cell.str "ICAB", Cell.int 2]] }

/-- A sheet whose device column holds the bare number 42: truthy,
unclassifiable, and not a string. -/
def bugTable9 : Table :=
  { cols := ["Customer", "Device", "Qty"],
    rows := [[Cell.str "A", Cell.int 42, Cell.int 1]] }

/-- A table is rectangular: every row has one cell per column label.
Tables read from a spreadsheet are rectangular, and every processing step
preserves this. -/
def Rect (t : Table) : Prop := ∀ r ∈ t.rows, r.length = t.cols.length

/-- The integer sum of the five category cells of row `i`, blank or
non-numeric cells counting as 0 — the right-hand side of claim C4. -/
def sumCats5 (t : Table) (i : Nat) : Int :=
  categories.foldl (fun acc cat => acc + toIntPy (getCell t i cat)) 0

/-- A well-formed sheet with one two-row customer group (`A`, with a
forward-filled second row) and one singleton group (`B`). -/
def wTable : Table :=
  { cols := ["Customer", "Device", "Qty"],
    rows := [[Cell.str "A", Cell.str "BAC-I", Cell.int 2],
             [Cell.blank, Cell.str "ICAB", Cell.int 3],
             [Cell.str "B", Cell.str "BEAME", Cell.int 4]] }

/-- A sheet whose first row has a blank (NaN) customer cell before any
non-blank customer value appears. -/
def wTable10 : Table :=
  { cols := ["Customer", "Device", "Qty"],
    rows := [[Cell.blank, Cell.str "BEAME", Cell.int 7],
             [Cell.str "A", Cell.str "BAC-I", Cell.int 2],
             [Cell.blank, Cell.str "ICAB", Cell.int 3]] }

theorem optOr_none_left {α : Type} (b : Option α) : optOr none b = b := rfl

theorem optOr_some_left {α : Type} (x : α) (b : Option α) :
    optOr (some x) b = some x := rfl

theorem optOr_none_right {α : Type} (a : Option α) : optOr a none = a := by
  cases a <;> rfl

theorem optOr_assoc {α : Type} (a b c : Option α) :
    optOr (optOr a b) c = optOr a (optOr b c) := by
  cases a <;> rfl

theorem lastMatch_cons (P : String → Bool) (c : String) (cs : List String) :
    lastMatch P (c :: cs) = optOr (lastMatch P cs) (if P c then some c else none) := by
  rcases h : lastMatch P cs with _ | x <;> simp only [lastMatch, h, optOr]

theorem roleStep_eq (acc : Option String × Option String × Option String) (col : String) :
    roleStep acc col =
      (if custMatch col then (some col, acc.2.1, acc.2.2)
       else if devMatch col then (acc.1, some col, acc.2.2)
       else if qtyMatch col then (acc.1, acc.2.1, some col)
       else acc) := by
  unfold roleStep custMatch devMatch qtyMatch
  by_cases h1 : strContains (lowerStr (trimStr col)) "customer" <;>
    by_cases h2 : strContains (lowerStr (trimStr col)) "device" <;>
    by_cases h3 : strContains (lowerStr (trimStr col)) "qty" <;>
    simp [custMatch, h1, h2, h3]

theorem foldl_roleStep (cols : List String) :
    ∀ a b c : Option String,
      cols.foldl roleStep (a, b, c) =
        (optOr (lastMatch custMatch cols) a, optOr (lastMatch devMatch cols) b,
         optOr (lastMatch qtyMatch cols) c) := by
  induction cols with
  | nil => intro a b c; rfl
  | cons col cs ih =>
    intro a b c
    simp only [List.foldl_cons, roleStep_eq, lastMatch_cons]
    by_cases h1 : custMatch col
    · have h2 : devMatch col = false := by simp [devMatch, h1]
      have h3 : qtyMatch col = false := by simp [qtyMatch, h1]
      simp only [h1, h2, h3, if_pos, if_neg, Bool.false_eq_true, if_false, if_true, ih,
        optOr_assoc, optOr_some_left, optOr_none_left]
    · by_cases h2 : devMatch col
      · have h3 : qtyMatch col = false := by
          have := h2
          simp [devMatch] at this
          simp [qtyMatch, this.2]
        simp only [h1, h2, h3, Bool.false_eq_true, if_false, if_true, ih,
          optOr_assoc, optOr_some_left, optOr_none_left]
      · by_cases h3 : qtyMatch col <;>
          simp only [h1, h2, h3, Bool.false_eq_true, if_false, if_true, ih,
            optOr_assoc, optOr_some_left, optOr_none_left]

/-- C7: the default classifier applies its rules first-match-wins:
`BAC-I Combo Unit` hits the BAC-I rule before the combo rule, `COMBO-X200`
falls to the combo rule, `ICAB-H200` to the I-CAB H rule, `unknown-widget`
to no rule, and non-string cells (numbers, NaN) classify to `none` without
an error. -/
theorem C7_rule_order_examples :
    classify_device_type (Cell.str "BAC-I Combo Unit") = some "BAC-I" ∧
    classify_device_type (Cell.str "COMBO-X200") = some "I-CAB" ∧
    classify_device_type (Cell.str "ICAB-H200") = some "I-CAB H" ∧
    classify_device_type (Cell.str "unknown-widget") = none ∧
    (∀ n : Int, classify_device_type (Cell.int n) = none) ∧
    classify_device_type Cell.blank = none :=
  ⟨by decide, by decide, by decide, by decide, fun _ => rfl, rfl⟩

/-- Witness for C7 at the concrete non-string input 42. -/
theorem C7_witness : classify_device_type (Cell.int 42) = none :=
  C7_rule_order_examples.2.2.2.2.1 42

/-- C6: classification is invariant under the normalization — two device
strings that differ only in letter case, leading or trailing whitespace, or
internal hyphens, underscores and spaces have equal `normDevice` canonical
forms, and any two strings with equal canonical forms classify alike. -/
theorem C6_normalization_invariance (s1 s2 : String)
    (h : normDevice s1 = normDevice s2) :
    classify_device_type (Cell.str s1) = classify_device_type (Cell.str s2) := by
  simp only [classify_device_type, h]

/-- Witness for C6: two spellings of the same device differing in case,
edge whitespace, underscores, hyphens and internal spaces. -/
theorem C6_witness :
    normDevice "  I-CAB_H 200 " = normDevice "icabh200" ∧
    classify_device_type (Cell.str "  I-CAB_H 200 ")
      = classify_device_type (Cell.str "icabh200") :=
  ⟨by decide, C6_normalization_invariance "  I-CAB_H 200 " "icabh200" (by decide)⟩

/-- C8: a sheet whose name equals `de/re/maintenance` after trimming and
lowercasing is returned exactly as given, whatever its contents. -/
theorem C8_maintenance_passthrough (cf : Cell → Option String) (t : Table)
    (name : String) (h : lowerStr (trimStr name) = "de/re/maintenance") :
    process_sheet_if_applicable cf t name = some t := by
  simp [process_sheet_if_applicable, h]

/-- Witness for C8 on a concrete oddly-shaped table and a mixed-case,
padded sheet name. -/
theorem C8_witness :
    process_sheet_if_applicable classify_device_type
      { cols := ["X"], rows := [[Cell.int 1, Cell.int 2]] } " De/Re/MAINTENANCE " =
      some { cols := ["X"], rows := [[Cell.int 1, Cell.int 2]] } :=
  C8_maintenance_passthrough classify_device_type
    { cols := ["X"], rows := [[Cell.int 1, Cell.int 2]] } " De/Re/MAINTENANCE " (by decide)

/-- C9: on a workbook sheet whose device column holds the non-string,
truthy, unclassifiable value 42, the sheet passes processing (the device
column keeps the value), and the unknown-device collection step then hits
`device.strip()` on a non-string and raises `AttributeError` instead of
returning the set of unknown names. -/
theorem C9_collect_unknown_raises :
    (process_flexible_sheet classify_device_type bugTable9).map collectUnknownSheet
      = some (Except.error "AttributeError: .strip on a non-string device value") := by
  rfl

/-- C3 counterexample: with two distinct labels both containing `customer`,
role resolution binds the customer role to the LAST such column, not the
first as the claim states. -/
theorem C3_counterexample :
    custMatch "Customer A" = true ∧ custMatch "Customer B" = true ∧
    (resolveRoles ["Customer A", "Customer B", "Device", "Qty"]).1 = some "Customer B" ∧
    (resolveRoles ["Customer A", "Customer B", "Device", "Qty"]).1 ≠ some "Customer A" := by
  decide

/-- C3 (amended): each role resolves to the LAST column in column order
whose label matches it — `customer` as a substring for the customer role,
and, because of the `elif` chain, `device` but not `customer` for the
device role, `qty` but neither `customer` nor `device` for the qty role. -/
theorem C3_amended_last_match_wins (cols : List String) :
    resolveRoles cols =
      (lastMatch custMatch cols, lastMatch devMatch cols, lastMatch qtyMatch cols) := by
  unfold resolveRoles
  rw [foldl_roleStep]
  simp [optOr_none_right]

/-- Witness for C3 (amended) at the concrete duplicated-label header. -/
theorem C3_witness :
    resolveRoles ["Customer A", "Customer B", "Device", "Qty"] =
      (lastMatch custMatch ["Customer A", "Customer B", "Device", "Qty"],
       lastMatch devMatch ["Customer A", "Customer B", "Device", "Qty"],
       lastMatch qtyMatch ["Customer A", "Customer B", "Device", "Qty"]) :=
  C3_amended_last_match_wins ["Customer A", "Customer B", "Device", "Qty"]

/-- C2 counterexample: a table whose roles do not all resolve is NOT
returned equal to its input — `cexTable2`'s first data row is promoted to
the header and dropped before the role check, so the skipped sheet comes
back with different labels and one row fewer; and a table with no rows at
all makes `df.iloc[0]` raise (modelled by `none`) rather than pass
through. -/
theorem C2_counterexample :
    rolesResolved (resolveRoles (headerClean cexTable2 (cexTable2.rows.headD [])).cols)
        = false ∧
    process_flexible_sheet classify_device_type cexTable2
        = some { cols := ["Customer", "Device"], rows := [] } ∧
    ({ cols := ["Customer", "Device"], rows := [] } : Table) ≠ cexTable2 ∧
    process_flexible_sheet classify_device_type { cols := ["Customer"], rows := [] } = none := by
  decide

/-- C2 (amended): for a NON-EMPTY table in which at least one of the three
roles cannot be resolved (on the cleaned header), `process_flexible_sheet`
raises no exception and returns the table after header detection and
column cleanup only — header row possibly promoted, labels stripped,
duplicate and `nan`/`unnamed` columns dropped — with no aggregation
applied; this table need not equal the original input. -/
theorem C2_amended_skip_returns_cleaned (cf : Cell → Option String) (t : Table)
    (r0 : List Cell) (rest : List (List Cell)) (hrows : t.rows = r0 :: rest)
    (hun : rolesResolved (resolveRoles (headerClean t r0).cols) = false) :
    process_flexible_sheet cf t = some (headerClean t r0) := by
  rcases h : resolveRoles (headerClean t r0).cols with ⟨a, b, c⟩
  rw [h] at hun
  unfold process_flexible_sheet
  rw [hrows]
  dsimp only
  rw [h]
  rcases a with _ | cu
  · cases b <;> cases c <;> rfl
  · rcases b with _ | de
    · cases c <;> rfl
    · rcases c with _ | q
      · rfl
      · simp [rolesResolved] at hun

/-- Witness for C2 (amended) on the concrete header-promoted table. -/
theorem C2_witness :
    process_flexible_sheet classify_device_type cexTable2
      = some (headerClean cexTable2 [Cell.str "Customer", Cell.str "Device"]) :=
  C2_amended_skip_returns_cleaned classify_device_type cexTable2
    [Cell.str "Customer", Cell.str "Device"] [] (by decide) (by decide)

/-- C1 counterexample: in `cexTable1` the customer column reads `A, B, A` —
two non-adjacent runs of `A`.  The claim says they form two groups, each
with its own totals on its own first row; in fact `df.groupby` makes ONE
group `A` with row indices 0 and 2, row 0 receives the BEAME total 3
contributed by the non-adjacent row 2, and row 2 — the first row of the
second run — gets empty category cells and a blanked customer. -/
theorem C1_counterexample :
    aggGroups (headerClean cexTable1 (cexTable1.rows.headD [])) "Customer"
        = [(Cell.str "B", [1]), (Cell.str "A", [0, 2])] ∧
    (process_flexible_sheet classify_device_type cexTable1).map
        (fun t => (getCell t 0 "BEAME", getCell t 2 "BEAME",
                   getCell t 2 "BAC-I", getCell t 2 "Customer"))
      = some (Cell.int 3, Cell.str "", Cell.str "", Cell.str "") := by
  decide

theorem colIdx_lt {nm : String} {cols : List String} {ci : Nat}
    (h : colIdx? nm cols = some ci) : ci < cols.length := by
  induction cols generalizing ci with
  | nil => simp [colIdx?] at h
  | cons c cs ih =>
    simp only [colIdx?] at h
    split at h
    · cases h; simp
    · rcases Option.map_eq_some'.mp h with ⟨j, hj, rfl⟩
      have := ih hj
      simp only [List.length_cons]
      omega

theorem colIdx_get {nm : String} {cols : List String} {ci : Nat}
    (h : colIdx? nm cols = some ci) : cols.getD ci "" = nm := by
  induction cols generalizing ci with
  | nil => simp [colIdx?] at h
  | cons c cs ih =>
    simp only [colIdx?] at h
    split at h
    · cases h; simpa using ‹c = nm›
    · rcases Option.map_eq_some'.mp h with ⟨j, hj, rfl⟩
      simpa using ih hj

theorem colIdx_ne {nm nm' : String} {cols : List String} {ci ci' : Nat}
    (h : colIdx? nm cols = some ci) (h' : colIdx? nm' cols = some ci')
    (hne : nm ≠ nm') : ci ≠ ci' := by
  intro he
  subst he
  exact hne (by rw [← colIdx_get h, ← colIdx_get h'])

theorem colIdx_isSome_iff {nm : String} {cols : List String} :
    (colIdx? nm cols).isSome = true ↔ nm ∈ cols := by
  induction cols with
  | nil => simp [colIdx?]
  | cons c cs ih =>
    simp only [colIdx?]
    by_cases hc : c = nm
    · simp [hc]
    · rcases ho : colIdx? nm cs with _ | j <;>
        simp [hc, ho, List.mem_cons, ← ih, Ne.symm hc]

theorem setCell_cols (t : Table) (ri : Nat) (nm : String) (v : Cell) :
    (setCell t ri nm v).cols = t.cols := by
  rcases h : colIdx? nm t.cols with _ | ci <;> simp [setCell, h]

theorem setCell_rows_length (t : Table) (ri : Nat) (nm : String) (v : Cell) :
    (setCell t ri nm v).rows.length = t.rows.length := by
  rcases h : colIdx? nm t.cols with _ | ci <;> simp [setCell, h]

theorem getD_rows_mem {t : Table} (ht : Rect t) {ri : Nat} (hri : ri < t.rows.length) :
    (t.rows.getD ri []).length = t.cols.length := by
  rw [List.getD_eq_getElem _ _ hri]
  exact ht _ (List.getElem_mem hri)

theorem setCell_rect {t : Table} (ht : Rect t) (ri : Nat) (nm : String) (v : Cell) :
    Rect (setCell t ri nm v) := by
  rcases h : colIdx? nm t.cols with _ | ci <;> simp only [setCell, h]
  · exact ht
  · by_cases hri : ri < t.rows.length
    · intro r hr
      rcases List.mem_or_eq_of_mem_set hr with hmem | rfl
      · exact ht r hmem
      · simpa [List.length_set] using getD_rows_mem ht hri
    · rw [List.set_eq_of_length_le (Nat.le_of_not_lt hri)]
      exact ht

theorem getCell_setCell_same {t : Table} (ht : Rect t) {ri : Nat}
    (hri : ri < t.rows.length) {nm : String} (hnm : nm ∈ t.cols) (v : Cell) :
    getCell (setCell t ri nm v) ri nm = v := by
  obtain ⟨ci, hci⟩ := Option.isSome_iff_exists.mp (colIdx_isSome_iff.mpr hnm)
  have hlt : ci < t.cols.length := colIdx_lt hci
  have h1 : (t.rows.set ri ((t.rows.getD ri []).set ci v)).getD ri [] =
      (t.rows.getD ri []).set ci v := by
    rw [List.getD_eq_getElem?_getD, List.getElem?_set_eq_of_lt _ hri, Option.getD_some]
  simp only [setCell, hci, getCell, rowGet, h1]
  rw [List.getD_eq_getElem?_getD, List.getElem?_set_eq_of_lt, Option.getD_some]
  rw [getD_rows_mem ht hri]
  exact hlt

theorem getCell_setCell_ne_row {t : Table} {ri ri' : Nat} (h : ri' ≠ ri)
    (nm nm' : String) (v : Cell) :
    getCell (setCell t ri nm v) ri' nm' = getCell t ri' nm' := by
  rcases hc : colIdx? nm t.cols with _ | ci
  · simp [setCell, hc]
  · simp only [setCell, hc, getCell]
    rw [List.getD_eq_getElem?_getD, List.getElem?_set_ne (Ne.symm h),
      ← List.getD_eq_getElem?_getD]

theorem getCell_setCell_ne_col {t : Table} (ri : Nat) {nm : String} (v : Cell)
    (ri' : Nat) {nm' : String} (hne : nm' ≠ nm) :
    getCell (setCell t ri nm v) ri' nm' = getCell t ri' nm' := by
  rcases hc : colIdx? nm t.cols with _ | ci
  · simp [setCell, hc]
  · by_cases hr : ri' = ri
    · subst hr
      rcases hc' : colIdx? nm' t.cols with _ | ci'
      · simp [setCell, getCell, rowGet, hc, hc']
      · have hcine : ci' ≠ ci := colIdx_ne hc' hc (fun he => hne he)
        by_cases hri : ri' < t.rows.length
        · have h1 : (t.rows.set ri' ((t.rows.getD ri' []).set ci v)).getD ri' [] =
              (t.rows.getD ri' []).set ci v := by
            rw [List.getD_eq_getElem?_getD, List.getElem?_set_eq_of_lt _ hri, Option.getD_some]
          simp only [setCell, getCell, rowGet, hc, hc', h1]
          rw [List.getD_eq_getElem?_getD, List.getElem?_set_ne (Ne.symm hcine),
            ← List.getD_eq_getElem?_getD]
        · simp only [setCell, getCell, rowGet, hc, hc']
          rw [List.set_eq_of_length_le (Nat.le_of_not_lt hri)]
    · exact getCell_setCell_ne_row hr nm nm' v

/-- C5 counterexample: both customer cells of `cexTable5` hold the empty
string, which is not NaN, so forward-fill keeps it and `groupby` forms one
two-row group keyed by `""`; after processing NO row of that group has a
non-blank customer cell, where the claim requires exactly one. -/
theorem C5_counterexample :
    aggGroups (headerClean cexTable5 (cexTable5.rows.headD [])) "Customer"
        = [(Cell.str "", [0, 1])] ∧
    (process_flexible_sheet classify_device_type cexTable5).map
        (fun t => (isBlankCell (getCell t 0 "Customer"), isBlankCell (getCell t 1 "Customer")))
      = some (true, true) := by
  decide


theorem colIdx_none_iff {nm : String} {cols : List String} :
    colIdx? nm cols = none ↔ nm ∉ cols := by
  rw [← colIdx_isSome_iff]
  cases colIdx? nm cols <;> simp

theorem colIdx_append_ne {nm x : String} (hne : x ≠ nm) (cols : List String) :
    colIdx? nm (cols ++ [x]) = colIdx? nm cols := by
  induction cols with
  | nil => simp [colIdx?, hne]
  | cons c cs ih =>
    rw [List.cons_append]
    simp only [colIdx?]
    rw [ih]

theorem colIdx_append_self {nm : String} {cols : List String} (h : nm ∉ cols) :
    colIdx? nm (cols ++ [nm]) = some cols.length := by
  induction cols with
  | nil => simp [colIdx?]
  | cons c cs ih =>
    have hc : ¬ (c = nm) := fun he => h (he ▸ List.mem_cons_self c cs)
    rw [List.cons_append]
    simp only [colIdx?, hc, if_false]
    rw [ih (fun hm => h (List.mem_cons_of_mem c hm))]
    simp

theorem getD_map_rows {f : List Cell → List Cell} {rs : List (List Cell)} {ri : Nat}
    (hri : ri < rs.length) : (rs.map f).getD ri [] = f (rs.getD ri []) := by
  rw [List.getD_eq_getElem _ _ (by simpa using hri), List.getD_eq_getElem _ _ hri,
    List.getElem_map]

theorem getD_set_rows_same {rs : List (List Cell)} {ri : Nat} (hri : ri < rs.length)
    (x : List Cell) : (rs.set ri x).getD ri [] = x := by
  rw [List.getD_eq_getElem _ _ (by simpa using hri)]
  exact List.getElem_set_self _

theorem getD_set_same_cell {r : List Cell} {ci : Nat} (h : ci < r.length) (v : Cell) :
    (r.set ci v).getD ci Cell.blank = v := by
  rw [List.getD_eq_getElem _ _ (by simpa using h)]
  exact List.getElem_set_self _

theorem getD_set_ne_cell {r : List Cell} {ci ci' : Nat} (h : ci' ≠ ci) (v : Cell) :
    (r.set ci v).getD ci' Cell.blank = r.getD ci' Cell.blank := by
  rw [List.getD_eq_getElem?_getD, List.getElem?_set_ne (Ne.symm h),
    ← List.getD_eq_getElem?_getD]

theorem getD_append_lt {r r2 : List Cell} {ci : Nat} (h : ci < r.length) :
    (r ++ r2).getD ci Cell.blank = r.getD ci Cell.blank := by
  rw [List.getD_eq_getElem _ _ (by simp; omega), List.getD_eq_getElem _ _ h,
    List.getElem_append_left h]

theorem getD_append_self {r : List Cell} (v : Cell) :
    (r ++ [v]).getD r.length Cell.blank = v := by
  rw [List.getD_eq_getElem _ _ (by simp)]
  simp

theorem getD_rows_oob {rs : List (List Cell)} {ri : Nat} (h : ¬ ri < rs.length) :
    rs.getD ri [] = [] := by
  rw [List.getD_eq_getElem?_getD, List.getElem?_eq_none (by omega), Option.getD_none]

theorem rowGet_nil (cols : List String) (nm : String) : rowGet cols [] nm = Cell.blank := by
  rcases h : colIdx? nm cols with _ | ci <;> simp [rowGet, h]

theorem setColConst_rows_length (t : Table) (nm : String) (v : Cell) :
    (setColConst t nm v).rows.length = t.rows.length := by
  rcases h : colIdx? nm t.cols with _ | ci <;> simp [setColConst, h]

theorem setColConst_cols_of_mem {t : Table} {nm : String} (h : nm ∈ t.cols) (v : Cell) :
    (setColConst t nm v).cols = t.cols := by
  obtain ⟨ci, hci⟩ := Option.isSome_iff_exists.mp (colIdx_isSome_iff.mpr h)
  simp [setColConst, hci]

theorem setColConst_mem_cols (t : Table) (nm : String) (v : Cell) :
    nm ∈ (setColConst t nm v).cols := by
  rcases h : colIdx? nm t.cols with _ | ci <;> simp only [setColConst, h]
  · simp
  · exact colIdx_isSome_iff.mp (by simp [h])

theorem mem_cols_setColConst (t : Table) (nm : String) (v : Cell) {nm' : String}
    (h : nm' ∈ t.cols) : nm' ∈ (setColConst t nm v).cols := by
  rcases hc : colIdx? nm t.cols with _ | ci <;> simp only [setColConst, hc]
  · exact List.mem_append_left _ h
  · exact h

theorem setColConst_rect {t : Table} (ht : Rect t) (nm : String) (v : Cell) :
    Rect (setColConst t nm v) := by
  rcases hc : colIdx? nm t.cols with _ | ci <;> simp only [setColConst, hc, Rect] <;>
    intro r hr <;> rcases List.mem_map.mp hr with ⟨r0, hr0, rfl⟩ <;> simp [ht r0 hr0]

theorem getCell_setColConst_same {t : Table} (ht : Rect t) {ri : Nat}
    (hri : ri < t.rows.length) (nm : String) (v : Cell) :
    getCell (setColConst t nm v) ri nm = v := by
  rcases hc : colIdx? nm t.cols with _ | ci <;>
    simp only [setColConst, hc, getCell, rowGet]
  · have hnotmem : nm ∉ t.cols := colIdx_none_iff.mp hc
    rw [colIdx_append_self hnotmem, getD_map_rows hri]
    dsimp only
    rw [← getD_rows_mem ht hri, getD_append_self]
  · rw [getD_map_rows hri, getD_set_same_cell]
    rw [getD_rows_mem ht hri]
    exact colIdx_lt hc

theorem getCell_setColConst_ne {t : Table} (ht : Rect t) (ri : Nat) (nm : String)
    (v : Cell) {nm' : String} (hne : nm' ≠ nm) :
    getCell (setColConst t nm v) ri nm' = getCell t ri nm' := by
  by_cases hri : ri < t.rows.length
  · rcases hc : colIdx? nm t.cols with _ | ci <;>
      simp only [setColConst, hc, getCell, rowGet]
    · rw [colIdx_append_ne (fun he => hne he.symm), getD_map_rows hri]
      rcases hc' : colIdx? nm' t.cols with _ | ci'
      · rfl
      · exact getD_append_lt (by rw [getD_rows_mem ht hri]; exact colIdx_lt hc')
    · rw [getD_map_rows hri]
      rcases hc' : colIdx? nm' t.cols with _ | ci'
      · rfl
      · exact getD_set_ne_cell (colIdx_ne hc' hc hne) v
  · rcases hc : colIdx? nm t.cols with _ | ci <;>
      simp only [setColConst, hc, getCell]
    · rw [getD_rows_oob (by simpa using hri), getD_rows_oob hri, rowGet_nil, rowGet_nil]
    · rw [getD_rows_oob (by simpa using hri), getD_rows_oob hri]

theorem getD_zipWith_rows {f : List Cell → Cell → List Cell} {rs : List (List Cell)}
    {vs : List Cell} {ri : Nat} (h1 : ri < rs.length) (h2 : ri < vs.length) :
    (List.zipWith f rs vs).getD ri [] = f (rs.getD ri []) (vs.getD ri Cell.blank) := by
  rw [List.getD_eq_getElem _ _ (by simp [List.length_zipWith]; omega),
    List.getD_eq_getElem _ _ h1, List.getD_eq_getElem _ _ h2, List.getElem_zipWith]

theorem setColList_rows_length (t : Table) (nm : String) (vals : List Cell)
    (hlen : vals.length = t.rows.length) :
    (setColList t nm vals).rows.length = t.rows.length := by
  rcases h : colIdx? nm t.cols with _ | ci <;> simp [setColList, h, hlen]

theorem setColList_cols_of_mem {t : Table} {nm : String} (h : nm ∈ t.cols)
    (vals : List Cell) : (setColList t nm vals).cols = t.cols := by
  obtain ⟨ci, hci⟩ := Option.isSome_iff_exists.mp (colIdx_isSome_iff.mpr h)
  simp [setColList, hci]

theorem setColList_rect {t : Table} (ht : Rect t) (nm : String) (vals : List Cell) :
    Rect (setColList t nm vals) := by
  rcases hc : colIdx? nm t.cols with _ | ci <;> simp only [setColList, hc, Rect] <;>
    intro r hr <;> rcases List.mem_iff_getElem.mp hr with ⟨i, hi, rfl⟩ <;>
    rw [List.getElem_zipWith] <;>
    have hi1 : i < t.rows.length := by simp [List.length_zipWith] at hi; omega
  · simp [ht _ (List.getElem_mem hi1)]
  · simp [ht _ (List.getElem_mem hi1)]

theorem getCell_setColList_same {t : Table} (ht : Rect t) {ri : Nat}
    (hri : ri < t.rows.length) (nm : String) (vals : List Cell)
    (hlen : vals.length = t.rows.length) :
    getCell (setColList t nm vals) ri nm = vals.getD ri Cell.blank := by
  rcases hc : colIdx? nm t.cols with _ | ci <;> simp only [setColList, hc, getCell, rowGet]
  · have hnotmem : nm ∉ t.cols := colIdx_none_iff.mp hc
    rw [colIdx_append_self hnotmem, getD_zipWith_rows hri (by omega)]
    dsimp only
    rw [← getD_rows_mem ht hri, getD_append_self]
  · rw [getD_zipWith_rows hri (by omega), getD_set_same_cell]
    rw [getD_rows_mem ht hri]
    exact colIdx_lt hc

theorem getCell_setColList_ne {t : Table} (ht : Rect t) (ri : Nat) (nm : String)
    (vals : List Cell) (hlen : vals.length = t.rows.length) {nm' : String}
    (hne : nm' ≠ nm) :
    getCell (setColList t nm vals) ri nm' = getCell t ri nm' := by
  by_cases hri : ri < t.rows.length
  · have hriv : ri < vals.length := by omega
    rcases hc : colIdx? nm t.cols with _ | ci <;> simp only [setColList, hc, getCell, rowGet]
    · rw [colIdx_append_ne (fun he => hne he.symm), getD_zipWith_rows hri hriv]
      rcases hc' : colIdx? nm' t.cols with _ | ci'
      · rfl
      · exact getD_append_lt (by rw [getD_rows_mem ht hri]; exact colIdx_lt hc')
    · rw [getD_zipWith_rows hri hriv]
      rcases hc' : colIdx? nm' t.cols with _ | ci'
      · rfl
      · exact getD_set_ne_cell (colIdx_ne hc' hc hne) _
  · rcases hc : colIdx? nm t.cols with _ | ci <;> simp only [setColList, hc, getCell] <;>
      rw [getD_rows_oob (by simp [List.length_zipWith]; omega), getD_rows_oob hri] <;>
      simp [rowGet_nil]

theorem getColList_length (t : Table) (nm : String) :
    (getColList t nm).length = t.rows.length := by
  simp [getColList]

theorem getColList_getD {t : Table} {ri : Nat} (hri : ri < t.rows.length) (nm : String) :
    (getColList t nm).getD ri Cell.blank = getCell t ri nm := by
  simp only [getColList, getCell]
  rw [List.getD_eq_getElem _ _ (by simpa using hri), List.getElem_map,
    List.getD_eq_getElem _ _ hri]

theorem selectCols_rows_length (t : Table) (names : List String) :
    (selectCols t names).rows.length = t.rows.length := by
  simp [selectCols]

theorem getCell_selectCols {t : Table} {ri : Nat} (hri : ri < t.rows.length)
    (names : List String) {nm : String} (hmem : nm ∈ names) :
    getCell (selectCols t names) ri nm = getCell t ri nm := by
  obtain ⟨j, hj⟩ := Option.isSome_iff_exists.mp (colIdx_isSome_iff.mpr hmem)
  simp only [selectCols, getCell, rowGet, hj]
  rw [getD_map_rows hri]
  rw [List.getD_eq_getElem _ _ (by simpa using colIdx_lt hj), List.getElem_map]
  have h2 := colIdx_get hj
  rw [List.getD_eq_getElem _ _ (colIdx_lt hj)] at h2
  rw [h2]

theorem ffillGo_length (last : Option Cell) (l : List Cell) :
    (ffillGo last l).length = l.length := by
  induction l generalizing last with
  | nil => rfl
  | cons c cs ih => cases c <;> rcases last with _ | v <;> simp [ffillGo, ih]

theorem ffilledCustomer_length (t : Table) (cu : String) :
    (ffilledCustomer t cu).length = t.rows.length := by
  rw [ffilledCustomer, ffillGo_length, getColList_length]

theorem ffillGo_none_blank_lead {l : List Cell} {i : Nat}
    (h : ∀ j, j ≤ i → l.getD j Cell.blank = Cell.blank) :
    (ffillGo none l).getD i Cell.blank = Cell.blank := by
  induction l generalizing i with
  | nil => simp [ffillGo]
  | cons c cs ih =>
    have h0 : c = Cell.blank := by simpa using h 0 (Nat.zero_le _)
    subst h0
    cases i with
    | zero => simp [ffillGo]
    | succ i2 =>
      simp only [ffillGo, List.getD_cons_succ]
      exact ih (fun j hj => by simpa using h (j + 1) (by omega))

theorem ffillGo_blank_of_all_blank {l : List Cell} (h : ∀ c ∈ l, c = Cell.blank) :
    ffillGo none l = l := by
  induction l with
  | nil => rfl
  | cons c cs ih =>
    have h0 : c = Cell.blank := h c (List.mem_cons_self _ _)
    subst h0
    simp only [ffillGo]
    rw [ih (fun c hc => h c (List.mem_cons_of_mem _ hc))]

theorem mem_groupIdxsOf {filled : List Cell} {k : Cell} {i : Nat} :
    i ∈ groupIdxsOf filled k ↔ i < filled.length ∧ filled.getD i Cell.blank = k := by
  simp [groupIdxsOf, List.mem_filter, List.mem_range]

theorem mem_aggGroups_iff {t : Table} {cu : String} {k : Cell} {idxs : List Nat} :
    (k, idxs) ∈ aggGroups t cu ↔
      k ∈ aggKeys t cu ∧ idxs = groupIdxsOf (ffilledCustomer t cu) k := by
  constructor
  · intro h
    rcases List.mem_map.mp h with ⟨a, ha, he⟩
    have h1 : a = k := congrArg Prod.fst he
    have h2 : groupIdxsOf (ffilledCustomer t cu) a = idxs := congrArg Prod.snd he
    subst h1
    exact ⟨ha, h2.symm⟩
  · rintro ⟨hk, rfl⟩
    exact List.mem_map.mpr ⟨k, hk, rfl⟩

theorem aggKeys_ne_blank {t : Table} {cu : String} {k : Cell} (h : k ∈ aggKeys t cu) :
    k ≠ Cell.blank := by
  rw [aggKeys, List.mem_dedup, List.mem_filter] at h
  intro he
  rw [he] at h
  simp at h

theorem aggKeys_mem_filled {t : Table} {cu : String} {k : Cell} (h : k ∈ aggKeys t cu) :
    k ∈ ffilledCustomer t cu := by
  rw [aggKeys, List.mem_dedup, List.mem_filter] at h
  exact h.1

theorem group_idxs_eq {t : Table} {cu : String} {k : Cell} {idxs : List Nat}
    (hg : (k, idxs) ∈ aggGroups t cu) :
    idxs = groupIdxsOf (ffilledCustomer t cu) k :=
  (mem_aggGroups_iff.mp hg).2

theorem group_idxs_ne_nil {t : Table} {cu : String} {k : Cell} {idxs : List Nat}
    (hg : (k, idxs) ∈ aggGroups t cu) : idxs ≠ [] := by
  rcases mem_aggGroups_iff.mp hg with ⟨hk, rfl⟩
  have hmem := aggKeys_mem_filled hk
  rcases List.mem_iff_getElem.mp hmem with ⟨i, hi, he⟩
  have : i ∈ groupIdxsOf (ffilledCustomer t cu) k :=
    mem_groupIdxsOf.mpr ⟨hi, by rw [List.getD_eq_getElem _ _ hi]; exact he⟩
  exact List.ne_nil_of_mem this

theorem headD_mem {l : List Nat} (h : l ≠ []) : l.headD 0 ∈ l := by
  cases l with
  | nil => simp at h
  | cons a as => simp

theorem group_head_mem {t : Table} {cu : String} {k : Cell} {idxs : List Nat}
    (hg : (k, idxs) ∈ aggGroups t cu) : idxs.headD 0 ∈ idxs :=
  headD_mem (group_idxs_ne_nil hg)

theorem group_mem_filled {t : Table} {cu : String} {k : Cell} {idxs : List Nat}
    (hg : (k, idxs) ∈ aggGroups t cu) {i : Nat} (hi : i ∈ idxs) :
    i < (ffilledCustomer t cu).length ∧ (ffilledCustomer t cu).getD i Cell.blank = k := by
  rw [group_idxs_eq hg] at hi
  exact mem_groupIdxsOf.mp hi

theorem group_head_filled {t : Table} {cu : String} {k : Cell} {idxs : List Nat}
    (hg : (k, idxs) ∈ aggGroups t cu) :
    idxs.headD 0 < (ffilledCustomer t cu).length ∧
      (ffilledCustomer t cu).getD (idxs.headD 0) Cell.blank = k :=
  group_mem_filled hg (group_head_mem hg)

theorem group_idxs_pairwise {t : Table} {cu : String} {k : Cell} {idxs : List Nat}
    (hg : (k, idxs) ∈ aggGroups t cu) : idxs.Pairwise (· < ·) := by
  rw [group_idxs_eq hg, groupIdxsOf]
  exact (List.pairwise_lt_range _).filter _

theorem group_head_lt_tail {t : Table} {cu : String} {k : Cell} {idxs : List Nat}
    (hg : (k, idxs) ∈ aggGroups t cu) : ∀ i ∈ idxs.tail, idxs.headD 0 < i := by
  have hp := group_idxs_pairwise hg
  rcases idxs with _ | ⟨a, as⟩
  · simp
  · simpa using (List.pairwise_cons.mp hp).1

theorem group_tail_mem {t : Table} {cu : String} {k : Cell} {idxs : List Nat}
    (hg : (k, idxs) ∈ aggGroups t cu) {i : Nat} (hi : i ∈ idxs.tail) : i ∈ idxs := by
  rcases idxs with _ | ⟨a, as⟩
  · simp at hi
  · exact List.mem_cons_of_mem _ hi

theorem aggGroups_pairwise_keys (t : Table) (cu : String) :
    (aggGroups t cu).Pairwise (fun g g' => g.1 ≠ g'.1) := by
  have hnd : (aggKeys t cu).Nodup := by
    rw [aggKeys]
    exact List.nodup_dedup _
  rw [aggGroups]
  exact List.Pairwise.map _ (fun a b hab => by simpa using hab) hnd

theorem group_heads_ne {t : Table} {cu : String} {k k' : Cell} {idxs idxs' : List Nat}
    (hg : (k, idxs) ∈ aggGroups t cu) (hg' : (k', idxs') ∈ aggGroups t cu)
    (hne : k ≠ k') : idxs.headD 0 ≠ idxs'.headD 0 := by
  intro he
  have h1 := (group_head_filled hg).2
  have h2 := (group_head_filled hg').2
  rw [he, h2] at h1
  exact hne h1.symm

theorem group_not_mem_of_ne {t : Table} {cu : String} {k k' : Cell} {idxs idxs' : List Nat}
    (hg : (k, idxs) ∈ aggGroups t cu) (hg' : (k', idxs') ∈ aggGroups t cu)
    (hne : k ≠ k') {i : Nat} (hi : i ∈ idxs) : i ∉ idxs' := by
  intro hi'
  have h1 := (group_mem_filled hg hi).2
  have h2 := (group_mem_filled hg' hi').2
  rw [h2] at h1
  exact hne h1.symm

theorem setCell_oob {t : Table} {ri : Nat} (h : ¬ ri < t.rows.length) (nm : String)
    (v : Cell) : setCell t ri nm v = t := by
  rcases hc : colIdx? nm t.cols with _ | ci <;> simp only [setCell, hc]
  rw [List.set_eq_of_length_le (Nat.le_of_not_lt h)]

theorem writeGroupTotals_cols (cf : Cell → Option String) (devs qtys : List Cell)
    (t : Table) (g : Cell × List Nat) :
    (writeGroupTotals cf devs qtys t g).cols = t.cols := by
  simp only [writeGroupTotals, categories, List.foldl_cons, List.foldl_nil, setCell_cols]

theorem writeGroupTotals_rows_length (cf : Cell → Option String) (devs qtys : List Cell)
    (t : Table) (g : Cell × List Nat) :
    (writeGroupTotals cf devs qtys t g).rows.length = t.rows.length := by
  simp only [writeGroupTotals, categories, List.foldl_cons, List.foldl_nil,
    setCell_rows_length]

theorem writeGroupTotals_rect {t : Table} (ht : Rect t) (cf : Cell → Option String)
    (devs qtys : List Cell) (g : Cell × List Nat) :
    Rect (writeGroupTotals cf devs qtys t g) := by
  simp only [writeGroupTotals, categories, List.foldl_cons, List.foldl_nil]
  exact setCell_rect (setCell_rect (setCell_rect (setCell_rect
    (setCell_rect ht _ _ _) _ _ _) _ _ _) _ _ _) _ _ _

theorem writeGroupTotals_frame_row {cf : Cell → Option String} {devs qtys : List Cell}
    {t : Table} {g : Cell × List Nat} {i : Nat} (h : i ≠ g.2.headD 0) (nm : String) :
    getCell (writeGroupTotals cf devs qtys t g) i nm = getCell t i nm := by
  simp only [writeGroupTotals, categories, List.foldl_cons, List.foldl_nil]
  rw [getCell_setCell_ne_row h, getCell_setCell_ne_row h, getCell_setCell_ne_row h,
    getCell_setCell_ne_row h, getCell_setCell_ne_row h]

theorem writeGroupTotals_frame_col {cf : Cell → Option String} {devs qtys : List Cell}
    {t : Table} {g : Cell × List Nat} (i : Nat) {nm : String} (h : nm ∉ categories) :
    getCell (writeGroupTotals cf devs qtys t g) i nm = getCell t i nm := by
  simp only [categories, List.mem_cons, List.not_mem_nil, or_false, not_or] at h
  obtain ⟨h1, h2, h3, h4, h5⟩ := h
  simp only [writeGroupTotals, categories, List.foldl_cons, List.foldl_nil]
  rw [getCell_setCell_ne_col _ _ _ h5, getCell_setCell_ne_col _ _ _ h4,
    getCell_setCell_ne_col _ _ _ h3, getCell_setCell_ne_col _ _ _ h2,
    getCell_setCell_ne_col _ _ _ h1]

theorem writeGroupTotals_hit {cf : Cell → Option String} {devs qtys : List Cell}
    {t : Table} (ht : Rect t) {g : Cell × List Nat} (hr : g.2.headD 0 < t.rows.length)
    (hcols : ∀ cat ∈ categories, cat ∈ t.cols) {cat : String} (hcat : cat ∈ categories) :
    getCell (writeGroupTotals cf devs qtys t g) (g.2.headD 0) cat
      = Cell.int (groupCount cf devs qtys g.2 cat) := by
  have hc1 : "BAC-I" ∈ t.cols := hcols _ (by simp [categories])
  have hc2 : "I-CAB" ∈ t.cols := hcols _ (by simp [categories])
  have hc3 : "I-CAB H" ∈ t.cols := hcols _ (by simp [categories])
  have hc4 : "I-CAB M" ∈ t.cols := hcols _ (by simp [categories])
  have hc5 : "BEAME" ∈ t.cols := hcols _ (by simp [categories])
  simp only [categories, List.mem_cons, List.not_mem_nil, or_false] at hcat
  simp only [writeGroupTotals, categories, List.foldl_cons, List.foldl_nil]
  rcases hcat with rfl | rfl | rfl | rfl | rfl
  · rw [getCell_setCell_ne_col _ _ _ (by decide), getCell_setCell_ne_col _ _ _ (by decide),
      getCell_setCell_ne_col _ _ _ (by decide), getCell_setCell_ne_col _ _ _ (by decide)]
    exact getCell_setCell_same ht hr hc1 _
  · rw [getCell_setCell_ne_col _ _ _ (by decide), getCell_setCell_ne_col _ _ _ (by decide),
      getCell_setCell_ne_col _ _ _ (by decide)]
    exact getCell_setCell_same (setCell_rect ht _ _ _)
      (by rw [setCell_rows_length]; exact hr) (by rw [setCell_cols]; exact hc2) _
  · rw [getCell_setCell_ne_col _ _ _ (by decide), getCell_setCell_ne_col _ _ _ (by decide)]
    exact getCell_setCell_same (setCell_rect (setCell_rect ht _ _ _) _ _ _)
      (by rw [setCell_rows_length, setCell_rows_length]; exact hr)
      (by rw [setCell_cols, setCell_cols]; exact hc3) _
  · rw [getCell_setCell_ne_col _ _ _ (by decide)]
    exact getCell_setCell_same
      (setCell_rect (setCell_rect (setCell_rect ht _ _ _) _ _ _) _ _ _)
      (by rw [setCell_rows_length, setCell_rows_length, setCell_rows_length]; exact hr)
      (by rw [setCell_cols, setCell_cols, setCell_cols]; exact hc4) _
  · exact getCell_setCell_same
      (setCell_rect (setCell_rect (setCell_rect (setCell_rect ht _ _ _) _ _ _) _ _ _) _ _ _)
      (by rw [setCell_rows_length, setCell_rows_length, setCell_rows_length,
        setCell_rows_length]; exact hr)
      (by rw [setCell_cols, setCell_cols, setCell_cols, setCell_cols]; exact hc5) _

theorem totalsFold_cols (cf : Cell → Option String) (devs qtys : List Cell)
    (gs : List (Cell × List Nat)) (t : Table) :
    (gs.foldl (writeGroupTotals cf devs qtys) t).cols = t.cols := by
  induction gs generalizing t with
  | nil => rfl
  | cons g rest ih => rw [List.foldl_cons, ih, writeGroupTotals_cols]

theorem totalsFold_rows_length (cf : Cell → Option String) (devs qtys : List Cell)
    (gs : List (Cell × List Nat)) (t : Table) :
    (gs.foldl (writeGroupTotals cf devs qtys) t).rows.length = t.rows.length := by
  induction gs generalizing t with
  | nil => rfl
  | cons g rest ih => rw [List.foldl_cons, ih, writeGroupTotals_rows_length]

theorem totalsFold_rect {t : Table} (ht : Rect t) (cf : Cell → Option String)
    (devs qtys : List Cell) (gs : List (Cell × List Nat)) :
    Rect (gs.foldl (writeGroupTotals cf devs qtys) t) := by
  induction gs generalizing t with
  | nil => exact ht
  | cons g rest ih => exact ih (writeGroupTotals_rect ht cf devs qtys g)

theorem totalsFold_frame {cf : Cell → Option String} {devs qtys : List Cell}
    {gs : List (Cell × List Nat)} {t : Table} {i : Nat}
    (h : ∀ g ∈ gs, i ≠ g.2.headD 0) (nm : String) :
    getCell (gs.foldl (writeGroupTotals cf devs qtys) t) i nm = getCell t i nm := by
  induction gs generalizing t with
  | nil => rfl
  | cons g rest ih =>
    rw [List.foldl_cons, ih (fun g' hg' => h g' (List.mem_cons_of_mem _ hg')),
      writeGroupTotals_frame_row (h g (List.mem_cons_self _ _)) nm]

theorem totalsFold_frame_col {cf : Cell → Option String} {devs qtys : List Cell}
    {gs : List (Cell × List Nat)} {t : Table} (i : Nat) {nm : String}
    (h : nm ∉ categories) :
    getCell (gs.foldl (writeGroupTotals cf devs qtys) t) i nm = getCell t i nm := by
  induction gs generalizing t with
  | nil => rfl
  | cons g rest ih => rw [List.foldl_cons, ih, writeGroupTotals_frame_col _ h]

theorem totalsFold_hit {cf : Cell → Option String} {devs qtys : List Cell}
    {t0 : Table} {cu : String} {gs : List (Cell × List Nat)}
    (hsub : ∀ g ∈ gs, g ∈ aggGroups t0 cu)
    (hpw : gs.Pairwise (fun g g' => g.1 ≠ g'.1))
    {tb : Table} (ht : Rect tb) (hlen : tb.rows.length = t0.rows.length)
    (hcols : ∀ cat ∈ categories, cat ∈ tb.cols)
    {k : Cell} {idxs : List Nat} (hmem : (k, idxs) ∈ gs)
    {cat : String} (hcat : cat ∈ categories) :
    getCell (gs.foldl (writeGroupTotals cf devs qtys) tb) (idxs.headD 0) cat
      = Cell.int (groupCount cf devs qtys idxs cat) := by
  induction gs generalizing tb with
  | nil => cases hmem
  | cons g rest ih =>
    rw [List.foldl_cons]
    rcases List.mem_cons.mp hmem with he | hmem2
    · subst he
      have hga : ((k, idxs) : Cell × List Nat) ∈ aggGroups t0 cu :=
        hsub _ (List.mem_cons_self _ _)
      have hhead : idxs.headD 0 < tb.rows.length := by
        rw [hlen, ← ffilledCustomer_length t0 cu]
        exact (group_head_filled hga).1
      rw [totalsFold_frame ?_ cat]
      · exact writeGroupTotals_hit ht hhead hcols hcat
      · intro g' hg'
        obtain ⟨k', idxs'⟩ := g'
        have hg'a : ((k', idxs') : Cell × List Nat) ∈ aggGroups t0 cu :=
          hsub _ (List.mem_cons_of_mem _ hg')
        have hkne : k ≠ k' := by
          have := (List.pairwise_cons.mp hpw).1 (k', idxs') hg'
          simpa using this
        exact group_heads_ne hga hg'a hkne
    · exact ih (fun g' h' => hsub g' (List.mem_cons_of_mem _ h'))
        (List.pairwise_cons.mp hpw).2
        (writeGroupTotals_rect ht cf devs qtys g)
        (by rw [writeGroupTotals_rows_length]; exact hlen)
        (fun c hc => by rw [writeGroupTotals_cols]; exact hcols c hc) hmem2

theorem blankFoldRows_cols (cu : String) (js : List Nat) (t : Table) :
    (js.foldl (fun t2 i => setCell t2 i cu (Cell.str "")) t).cols = t.cols := by
  induction js generalizing t with
  | nil => rfl
  | cons j js2 ih => rw [List.foldl_cons, ih, setCell_cols]

theorem blankFoldRows_rows_length (cu : String) (js : List Nat) (t : Table) :
    (js.foldl (fun t2 i => setCell t2 i cu (Cell.str "")) t).rows.length = t.rows.length := by
  induction js generalizing t with
  | nil => rfl
  | cons j js2 ih => rw [List.foldl_cons, ih, setCell_rows_length]

theorem blankFoldRows_rect {t : Table} (ht : Rect t) (cu : String) (js : List Nat) :
    Rect (js.foldl (fun t2 i => setCell t2 i cu (Cell.str "")) t) := by
  induction js generalizing t with
  | nil => exact ht
  | cons j js2 ih => exact ih (setCell_rect ht _ _ _)

theorem blankFoldRows_frame_col {cu : String} {js : List Nat} {t : Table} (i : Nat)
    {nm : String} (h : nm ≠ cu) :
    getCell (js.foldl (fun t2 j => setCell t2 j cu (Cell.str "")) t) i nm
      = getCell t i nm := by
  induction js generalizing t with
  | nil => rfl
  | cons j js2 ih => rw [List.foldl_cons, ih, getCell_setCell_ne_col _ _ _ h]

theorem blankFoldRows_frame_row {cu : String} {js : List Nat} {t : Table} {i : Nat}
    (h : i ∉ js) (nm : String) :
    getCell (js.foldl (fun t2 j => setCell t2 j cu (Cell.str "")) t) i nm
      = getCell t i nm := by
  induction js generalizing t with
  | nil => rfl
  | cons j js2 ih =>
    rw [List.foldl_cons, ih (fun hm => h (List.mem_cons_of_mem _ hm)),
      getCell_setCell_ne_row (fun he => h (by rw [he]; exact List.mem_cons_self _ _)) _ _ _]

theorem blankFoldRows_pres {cu : String} {js : List Nat} {t : Table} (ht : Rect t)
    (hcu : cu ∈ t.cols) {i : Nat} (hv : getCell t i cu = Cell.str "") :
    getCell (js.foldl (fun t2 j => setCell t2 j cu (Cell.str "")) t) i cu
      = Cell.str "" := by
  induction js generalizing t with
  | nil => exact hv
  | cons j js2 ih =>
    rw [List.foldl_cons]
    refine ih (setCell_rect ht _ _ _) (by rw [setCell_cols]; exact hcu) ?_
    by_cases hij : i = j
    · subst hij
      by_cases hlt : i < t.rows.length
      · exact getCell_setCell_same ht hlt hcu _
      · rw [setCell_oob hlt]
        exact hv
    · rw [getCell_setCell_ne_row hij _ _ _]
      exact hv

theorem blankFoldRows_hit {cu : String} {js : List Nat} {t : Table} (ht : Rect t)
    {i : Nat} (hi : i ∈ js) (hlt : i < t.rows.length) (hcu : cu ∈ t.cols) :
    getCell (js.foldl (fun t2 j => setCell t2 j cu (Cell.str "")) t) i cu
      = Cell.str "" := by
  induction js generalizing t with
  | nil => cases hi
  | cons j js2 ih =>
    rw [List.foldl_cons]
    rcases List.mem_cons.mp hi with rfl | hi2
    · refine blankFoldRows_pres (setCell_rect ht _ _ _)
        (by rw [setCell_cols]; exact hcu) ?_
      exact getCell_setCell_same ht hlt hcu _
    · exact ih (setCell_rect ht _ _ _) hi2
        (by rw [setCell_rows_length]; exact hlt) (by rw [setCell_cols]; exact hcu)

theorem blankGroup_cols (cu : String) (t : Table) (g : Cell × List Nat) :
    (blankGroup cu t g).cols = t.cols := by
  unfold blankGroup
  split
  · exact blankFoldRows_cols cu _ t
  · rfl

theorem blankGroup_rows_length (cu : String) (t : Table) (g : Cell × List Nat) :
    (blankGroup cu t g).rows.length = t.rows.length := by
  unfold blankGroup
  split
  · exact blankFoldRows_rows_length cu _ t
  · rfl

theorem blankGroup_rect {t : Table} (ht : Rect t) (cu : String) (g : Cell × List Nat) :
    Rect (blankGroup cu t g) := by
  unfold blankGroup
  split
  · exact blankFoldRows_rect ht cu _
  · exact ht

theorem blankGroup_frame_col {cu : String} {t : Table} {g : Cell × List Nat} (i : Nat)
    {nm : String} (h : nm ≠ cu) :
    getCell (blankGroup cu t g) i nm = getCell t i nm := by
  unfold blankGroup
  split
  · exact blankFoldRows_frame_col i h
  · rfl

theorem blankGroup_frame_row {cu : String} {t : Table} {g : Cell × List Nat} {i : Nat}
    (h : i ∉ g.2.tail) (nm : String) :
    getCell (blankGroup cu t g) i nm = getCell t i nm := by
  unfold blankGroup
  split
  · exact blankFoldRows_frame_row h nm
  · rfl

theorem blankGroup_pres {cu : String} {t : Table} (ht : Rect t) (hcu : cu ∈ t.cols)
    {g : Cell × List Nat} {i : Nat} (hv : getCell t i cu = Cell.str "") :
    getCell (blankGroup cu t g) i cu = Cell.str "" := by
  unfold blankGroup
  split
  · exact blankFoldRows_pres ht hcu hv
  · exact hv

theorem blankGroup_hit {cu : String} {t : Table} (ht : Rect t) {g : Cell × List Nat}
    {i : Nat} (hi : i ∈ g.2.tail) (hlt : i < t.rows.length) (hcu : cu ∈ t.cols) :
    getCell (blankGroup cu t g) i cu = Cell.str "" := by
  have hlen : 1 < g.2.length := by
    rcases hg : g.2 with _ | ⟨a, as⟩
    · rw [hg] at hi
      simp at hi
    · rw [hg] at hi
      simp only [List.tail_cons] at hi
      have hne : as ≠ [] := List.ne_nil_of_mem hi
      simp only [List.length_cons]
      have := List.length_pos.mpr hne
      omega
  unfold blankGroup
  rw [if_pos hlen]
  exact blankFoldRows_hit ht hi hlt hcu

theorem blankFold_cols (cu : String) (gs : List (Cell × List Nat)) (t : Table) :
    (gs.foldl (blankGroup cu) t).cols = t.cols := by
  induction gs generalizing t with
  | nil => rfl
  | cons g rest ih => rw [List.foldl_cons, ih, blankGroup_cols]

theorem blankFold_rows_length (cu : String) (gs : List (Cell × List Nat)) (t : Table) :
    (gs.foldl (blankGroup cu) t).rows.length = t.rows.length := by
  induction gs generalizing t with
  | nil => rfl
  | cons g rest ih => rw [List.foldl_cons, ih, blankGroup_rows_length]

theorem blankFold_rect {t : Table} (ht : Rect t) (cu : String)
    (gs : List (Cell × List Nat)) : Rect (gs.foldl (blankGroup cu) t) := by
  induction gs generalizing t with
  | nil => exact ht
  | cons g rest ih => exact ih (blankGroup_rect ht cu g)

theorem blankFold_frame_col {cu : String} {gs : List (Cell × List Nat)} {t : Table}
    (i : Nat) {nm : String} (h : nm ≠ cu) :
    getCell (gs.foldl (blankGroup cu) t) i nm = getCell t i nm := by
  induction gs generalizing t with
  | nil => rfl
  | cons g rest ih => rw [List.foldl_cons, ih, blankGroup_frame_col _ h]

theorem blankFold_frame_row {cu : String} {gs : List (Cell × List Nat)} {t : Table}
    {i : Nat} (h : ∀ g ∈ gs, i ∉ g.2.tail) (nm : String) :
    getCell (gs.foldl (blankGroup cu) t) i nm = getCell t i nm := by
  induction gs generalizing t with
  | nil => rfl
  | cons g rest ih =>
    rw [List.foldl_cons, ih (fun g' h' => h g' (List.mem_cons_of_mem _ h')),
      blankGroup_frame_row (h g (List.mem_cons_self _ _)) nm]

theorem blankFold_pres {cu : String} {gs : List (Cell × List Nat)} {t : Table}
    (ht : Rect t) (hcu : cu ∈ t.cols) {i : Nat}
    (hv : getCell t i cu = Cell.str "") :
    getCell (gs.foldl (blankGroup cu) t) i cu = Cell.str "" := by
  induction gs generalizing t with
  | nil => exact hv
  | cons g rest ih =>
    rw [List.foldl_cons]
    exact ih (blankGroup_rect ht cu g) (by rw [blankGroup_cols]; exact hcu)
      (blankGroup_pres ht hcu hv)

theorem blankFold_hit {cu : String} {gs : List (Cell × List Nat)} {t : Table}
    (ht : Rect t) (hcu : cu ∈ t.cols) {i : Nat} (hlt : i < t.rows.length)
    (hex : ∃ g ∈ gs, i ∈ g.2.tail) :
    getCell (gs.foldl (blankGroup cu) t) i cu = Cell.str "" := by
  induction gs generalizing t with
  | nil =>
    rcases hex with ⟨g, hg, _⟩
    cases hg
  | cons g rest ih =>
    rw [List.foldl_cons]
    by_cases hg1 : i ∈ g.2.tail
    · exact blankFold_pres (blankGroup_rect ht cu g)
        (by rw [blankGroup_cols]; exact hcu) (blankGroup_hit ht hg1 hlt hcu)
    · rcases hex with ⟨g', hg', hig'⟩
      have hg'r : g' ∈ rest := by
        rcases List.mem_cons.mp hg' with rfl | h2
        · exact absurd hig' hg1
        · exact h2
      exact ih (blankGroup_rect ht cu g) (by rw [blankGroup_cols]; exact hcu)
        (by rw [blankGroup_rows_length]; exact hlt) ⟨g', hg'r, hig'⟩

theorem writeNewQty_cols (t : Table) (g : Cell × List Nat) :
    (writeNewQty t g).cols = t.cols := by
  simp only [writeNewQty, setCell_cols]

theorem writeNewQty_rows_length (t : Table) (g : Cell × List Nat) :
    (writeNewQty t g).rows.length = t.rows.length := by
  simp only [writeNewQty, setCell_rows_length]

theorem writeNewQty_rect {t : Table} (ht : Rect t) (g : Cell × List Nat) :
    Rect (writeNewQty t g) := by
  simp only [writeNewQty]
  exact setCell_rect ht _ _ _

theorem writeNewQty_frame_col {t : Table} {g : Cell × List Nat} (i : Nat) {nm : String}
    (h : nm ≠ "NEW QTY") :
    getCell (writeNewQty t g) i nm = getCell t i nm := by
  simp only [writeNewQty]
  exact getCell_setCell_ne_col _ _ _ h

theorem writeNewQty_frame_row {t : Table} {g : Cell × List Nat} {i : Nat}
    (h : i ≠ g.2.headD 0) (nm : String) :
    getCell (writeNewQty t g) i nm = getCell t i nm := by
  simp only [writeNewQty]
  exact getCell_setCell_ne_row h _ _ _

theorem writeNewQty_hit {t : Table} (ht : Rect t) {g : Cell × List Nat}
    (hr : g.2.headD 0 < t.rows.length) (hq : "NEW QTY" ∈ t.cols) :
    getCell (writeNewQty t g) (g.2.headD 0) "NEW QTY"
      = Cell.int (categories.foldl
          (fun acc cat => newQtyAdd acc (getCell t (g.2.headD 0) cat)) 0) := by
  simp only [writeNewQty]
  exact getCell_setCell_same ht hr hq _

theorem newqtyFold_cols (gs : List (Cell × List Nat)) (t : Table) :
    (gs.foldl writeNewQty t).cols = t.cols := by
  induction gs generalizing t with
  | nil => rfl
  | cons g rest ih => rw [List.foldl_cons, ih, writeNewQty_cols]

theorem newqtyFold_rows_length (gs : List (Cell × List Nat)) (t : Table) :
    (gs.foldl writeNewQty t).rows.length = t.rows.length := by
  induction gs generalizing t with
  | nil => rfl
  | cons g rest ih => rw [List.foldl_cons, ih, writeNewQty_rows_length]

theorem newqtyFold_rect {t : Table} (ht : Rect t) (gs : List (Cell × List Nat)) :
    Rect (gs.foldl writeNewQty t) := by
  induction gs generalizing t with
  | nil => exact ht
  | cons g rest ih => exact ih (writeNewQty_rect ht g)

theorem newqtyFold_frame_col {gs : List (Cell × List Nat)} {t : Table} (i : Nat)
    {nm : String} (h : nm ≠ "NEW QTY") :
    getCell (gs.foldl writeNewQty t) i nm = getCell t i nm := by
  induction gs generalizing t with
  | nil => rfl
  | cons g rest ih => rw [List.foldl_cons, ih, writeNewQty_frame_col _ h]

theorem newqtyFold_frame_row {gs : List (Cell × List Nat)} {t : Table} {i : Nat}
    (h : ∀ g ∈ gs, i ≠ g.2.headD 0) (nm : String) :
    getCell (gs.foldl writeNewQty t) i nm = getCell t i nm := by
  induction gs generalizing t with
  | nil => rfl
  | cons g rest ih =>
    rw [List.foldl_cons, ih (fun g' h' => h g' (List.mem_cons_of_mem _ h')),
      writeNewQty_frame_row (h g (List.mem_cons_self _ _)) nm]

theorem cat_ne_newqty : ∀ cat ∈ categories, cat ≠ "NEW QTY" := by decide

theorem newqtyFold_hit {t0 : Table} {cu : String} {gs : List (Cell × List Nat)}
    (hsub : ∀ g ∈ gs, g ∈ aggGroups t0 cu)
    (hpw : gs.Pairwise (fun g g' => g.1 ≠ g'.1))
    {tb : Table} (ht : Rect tb) (hlen : tb.rows.length = t0.rows.length)
    (hq : "NEW QTY" ∈ tb.cols)
    {k : Cell} {idxs : List Nat} (hmem : (k, idxs) ∈ gs) :
    getCell (gs.foldl writeNewQty tb) (idxs.headD 0) "NEW QTY"
      = Cell.int (categories.foldl
          (fun acc cat => newQtyAdd acc (getCell tb (idxs.headD 0) cat)) 0) := by
  induction gs generalizing tb with
  | nil => cases hmem
  | cons g rest ih =>
    rw [List.foldl_cons]
    rcases List.mem_cons.mp hmem with he | hmem2
    · subst he
      have hga : ((k, idxs) : Cell × List Nat) ∈ aggGroups t0 cu :=
        hsub _ (List.mem_cons_self _ _)
      have hhead : idxs.headD 0 < tb.rows.length := by
        rw [hlen, ← ffilledCustomer_length t0 cu]
        exact (group_head_filled hga).1
      rw [newqtyFold_frame_row ?_ _]
      · exact writeNewQty_hit ht hhead hq
      · intro g' hg'
        obtain ⟨k', idxs'⟩ := g'
        have hg'a : ((k', idxs') : Cell × List Nat) ∈ aggGroups t0 cu :=
          hsub _ (List.mem_cons_of_mem _ hg')
        have hkne : k ≠ k' := by
          have := (List.pairwise_cons.mp hpw).1 (k', idxs') hg'
          simpa using this
        exact group_heads_ne hga hg'a hkne
    · rw [ih (fun g' h' => hsub g' (List.mem_cons_of_mem _ h'))
        (List.pairwise_cons.mp hpw).2 (writeNewQty_rect ht g)
        (by rw [writeNewQty_rows_length]; exact hlen)
        (by rw [writeNewQty_cols]; exact hq) hmem2]
      simp only [categories, List.foldl_cons, List.foldl_nil]
      rw [writeNewQty_frame_col _ (by decide : ("BAC-I" : String) ≠ "NEW QTY"),
        writeNewQty_frame_col _ (by decide : ("I-CAB" : String) ≠ "NEW QTY"),
        writeNewQty_frame_col _ (by decide : ("I-CAB H" : String) ≠ "NEW QTY"),
        writeNewQty_frame_col _ (by decide : ("I-CAB M" : String) ≠ "NEW QTY"),
        writeNewQty_frame_col _ (by decide : ("BEAME" : String) ≠ "NEW QTY")]

theorem constFold_rows_length (v : Cell) (names : List String) (t : Table) :
    (names.foldl (fun tb c => setColConst tb c v) t).rows.length = t.rows.length := by
  induction names generalizing t with
  | nil => rfl
  | cons c cs ih => rw [List.foldl_cons, ih, setColConst_rows_length]

theorem constFold_rect {t : Table} (ht : Rect t) (v : Cell) (names : List String) :
    Rect (names.foldl (fun tb c => setColConst tb c v) t) := by
  induction names generalizing t with
  | nil => exact ht
  | cons c cs ih => exact ih (setColConst_rect ht _ _)

theorem constFold_mem_cols {v : Cell} {names : List String} {t : Table} {nm : String}
    (h : nm ∈ t.cols) :
    nm ∈ (names.foldl (fun tb c => setColConst tb c v) t).cols := by
  induction names generalizing t with
  | nil => exact h
  | cons c cs ih => exact ih (mem_cols_setColConst _ _ _ h)

theorem constFold_self_mem {v : Cell} {names : List String} {t : Table} {nm : String}
    (hnm : nm ∈ names) :
    nm ∈ (names.foldl (fun tb c => setColConst tb c v) t).cols := by
  induction names generalizing t with
  | nil => cases hnm
  | cons c cs ih =>
    rw [List.foldl_cons]
    rcases List.mem_cons.mp hnm with rfl | h2
    · exact constFold_mem_cols (setColConst_mem_cols _ _ _)
    · exact ih h2

theorem constFold_frame {v : Cell} {names : List String} {t : Table} (ht : Rect t)
    (i : Nat) {nm : String} (h : nm ∉ names) :
    getCell (names.foldl (fun tb c => setColConst tb c v) t) i nm = getCell t i nm := by
  induction names generalizing t with
  | nil => rfl
  | cons c cs ih =>
    rw [List.foldl_cons, ih (setColConst_rect ht _ _)
        (fun h2 => h (List.mem_cons_of_mem _ h2)),
      getCell_setColConst_ne ht _ _ _ (fun he => h (by rw [he]; exact List.mem_cons_self _ _))]

theorem getCell_constFold {v : Cell} {names : List String} {t : Table} (ht : Rect t)
    {i : Nat} (hi : i < t.rows.length) {nm : String} (hnm : nm ∈ names) :
    getCell (names.foldl (fun tb c => setColConst tb c v) t) i nm = v := by
  induction names generalizing t with
  | nil => cases hnm
  | cons c cs ih =>
    rw [List.foldl_cons]
    rcases List.mem_cons.mp hnm with rfl | h2
    · by_cases hmem : nm ∈ cs
      · exact ih (setColConst_rect ht _ _)
          (by rw [setColConst_rows_length]; exact hi) hmem
      · rw [constFold_frame (setColConst_rect ht _ _) i hmem]
        exact getCell_setColConst_same ht hi _ _
    · exact ih (setColConst_rect ht _ _) (by rw [setColConst_rows_length]; exact hi) h2

theorem aggBase_rows_length (t : Table) (cu : String) :
    (aggBase t cu).rows.length = t.rows.length := by
  rw [aggBase, constFold_rows_length]
  exact setColList_rows_length _ _ _ (ffilledCustomer_length t cu)

theorem aggBase_rect {t : Table} (ht : Rect t) (cu : String) : Rect (aggBase t cu) := by
  rw [aggBase]
  exact constFold_rect (setColList_rect ht _ _) _ _

theorem aggBase_cats_mem (t : Table) (cu : String) :
    ∀ cat ∈ categories, cat ∈ (aggBase t cu).cols := by
  intro cat hcat
  rw [aggBase]
  exact constFold_self_mem hcat

theorem aggBase_cu_mem {t : Table} {cu : String} (h : cu ∈ t.cols) :
    cu ∈ (aggBase t cu).cols := by
  rw [aggBase]
  refine constFold_mem_cols ?_
  rw [setColList_cols_of_mem h]
  exact h

theorem getCell_aggBase_cat {t : Table} (ht : Rect t) (cu : String) {i : Nat}
    (hi : i < t.rows.length) {cat : String} (hcat : cat ∈ categories) :
    getCell (aggBase t cu) i cat = Cell.str "" := by
  rw [aggBase]
  exact getCell_constFold (setColList_rect ht _ _)
    (by rw [setColList_rows_length _ _ _ (ffilledCustomer_length t cu)]; exact hi) hcat

theorem getCell_aggBase_cu {t : Table} (ht : Rect t) {cu : String}
    (hcu : cu ∉ categories) {i : Nat} (hi : i < t.rows.length) :
    getCell (aggBase t cu) i cu = (ffilledCustomer t cu).getD i Cell.blank := by
  rw [aggBase, constFold_frame (setColList_rect ht _ _) i hcu]
  exact getCell_setColList_same ht hi _ _ (ffilledCustomer_length t cu)

theorem aggregate_eq (cf : Cell → Option String) (t : Table) (cu de q : String) :
    aggregate cf t cu de q =
      selectCols
        ((aggGroups t cu).foldl writeNewQty
          (setColConst
            ((aggGroups t cu).foldl (blankGroup cu)
              ((aggGroups t cu).foldl
                (writeGroupTotals cf (getColList (aggBase t cu) de)
                  (getColList (aggBase t cu) q)) (aggBase t cu)))
            "NEW QTY" (Cell.str "")))
        [cu, de, q, "NEW QTY", "I-CAB", "BAC-I", "I-CAB H", "I-CAB M", "BEAME"] := rfl

theorem group_eq_key {t : Table} {cu : String} {k : Cell} {idxs idxs' : List Nat}
    (hg : (k, idxs) ∈ aggGroups t cu) (hg' : (k, idxs') ∈ aggGroups t cu) :
    idxs = idxs' := by
  rw [group_idxs_eq hg, group_idxs_eq hg']

theorem head_not_in_tails {t : Table} {cu : String} {k : Cell} {idxs : List Nat}
    (hg : (k, idxs) ∈ aggGroups t cu) :
    ∀ g' ∈ aggGroups t cu, idxs.headD 0 ∉ g'.2.tail := by
  rintro ⟨k', idxs'⟩ hg' htl
  by_cases hke : k = k'
  · subst hke
    have he : idxs = idxs' := group_eq_key hg hg'
    subst he
    have h1 := group_head_lt_tail hg _ htl
    exact absurd h1 (lt_irrefl _)
  · exact group_not_mem_of_ne hg hg' hke (group_head_mem hg) (group_tail_mem hg' htl)

theorem tail_ne_heads {t : Table} {cu : String} {k : Cell} {idxs : List Nat}
    (hg : (k, idxs) ∈ aggGroups t cu) {i : Nat} (hi : i ∈ idxs.tail) :
    ∀ g' ∈ aggGroups t cu, i ≠ g'.2.headD 0 := by
  rintro ⟨k', idxs'⟩ hg' he
  by_cases hke : k = k'
  · subst hke
    have heq : idxs = idxs' := group_eq_key hg hg'
    subst heq
    have h1 := group_head_lt_tail hg _ hi
    have h2 : i = idxs.headD 0 := he
    omega
  · refine group_not_mem_of_ne hg hg' hke (group_tail_mem hg hi) ?_
    rw [he]
    exact group_head_mem hg'

theorem cu_mem_cols_of_group {t : Table} {cu : String} {k : Cell} {idxs : List Nat}
    (hg : (k, idxs) ∈ aggGroups t cu) : cu ∈ t.cols := by
  by_contra hcu
  have hall : ∀ c ∈ getColList t cu, c = Cell.blank := by
    intro c hc
    rcases List.mem_map.mp hc with ⟨r, _, rfl⟩
    simp [rowGet, colIdx_none_iff.mpr hcu]
  have hfb : ffilledCustomer t cu = getColList t cu := by
    rw [ffilledCustomer]
    exact ffillGo_blank_of_all_blank hall
  have hk := aggKeys_mem_filled (mem_aggGroups_iff.mp hg).1
  rw [hfb] at hk
  exact aggKeys_ne_blank (mem_aggGroups_iff.mp hg).1 (hall _ hk)

theorem agg_head_lt {t : Table} {cu : String} {k : Cell} {idxs : List Nat}
    (hg : (k, idxs) ∈ aggGroups t cu) : idxs.headD 0 < t.rows.length := by
  rw [← ffilledCustomer_length t cu]
  exact (group_head_filled hg).1

theorem agg_mem_lt {t : Table} {cu : String} {k : Cell} {idxs : List Nat}
    (hg : (k, idxs) ∈ aggGroups t cu) {i : Nat} (hi : i ∈ idxs) :
    i < t.rows.length := by
  rw [← ffilledCustomer_length t cu]
  exact (group_mem_filled hg hi).1

theorem agg_out_cat (cf : Cell → Option String) (t : Table) (cu de q : String)
    (ht : Rect t) (hcu : cu ∉ categories) {k : Cell} {idxs : List Nat}
    (hg : (k, idxs) ∈ aggGroups t cu) {cat : String} (hcat : cat ∈ categories) :
    getCell (aggregate cf t cu de q) (idxs.headD 0) cat
      = Cell.int (groupCount cf (getColList (aggBase t cu) de)
          (getColList (aggBase t cu) q) idxs cat) := by
  have ht3 : Rect (aggBase t cu) := aggBase_rect ht cu
  have hl3 := aggBase_rows_length t cu
  have ht4 := totalsFold_rect ht3 cf (getColList (aggBase t cu) de)
    (getColList (aggBase t cu) q) (aggGroups t cu)
  have ht5 := blankFold_rect ht4 cu (aggGroups t cu)
  have hl7 : ((aggGroups t cu).foldl writeNewQty
      (setColConst ((aggGroups t cu).foldl (blankGroup cu)
        ((aggGroups t cu).foldl (writeGroupTotals cf (getColList (aggBase t cu) de)
          (getColList (aggBase t cu) q)) (aggBase t cu)))
        "NEW QTY" (Cell.str ""))).rows.length = t.rows.length := by
    rw [newqtyFold_rows_length, setColConst_rows_length, blankFold_rows_length,
      totalsFold_rows_length, hl3]
  have hnames : cat ∈ [cu, de, q, "NEW QTY", "I-CAB", "BAC-I", "I-CAB H", "I-CAB M", "BEAME"] := by
    simp only [categories, List.mem_cons, List.not_mem_nil, or_false] at hcat
    rcases hcat with rfl | rfl | rfl | rfl | rfl <;> simp
  rw [aggregate_eq, getCell_selectCols (by rw [hl7]; exact agg_head_lt hg) _ hnames,
    newqtyFold_frame_col _ (cat_ne_newqty cat hcat),
    getCell_setColConst_ne ht5 _ _ _ (cat_ne_newqty cat hcat),
    blankFold_frame_col _ (fun he => hcu (by rw [← he]; exact hcat)),
    totalsFold_hit (fun g h => h) (aggGroups_pairwise_keys t cu) ht3 hl3
      (aggBase_cats_mem t cu) hg hcat]

theorem agg_out_newqty_head (cf : Cell → Option String) (t : Table) (cu de q : String)
    (ht : Rect t) (hcu : cu ∉ categories) {k : Cell} {idxs : List Nat}
    (hg : (k, idxs) ∈ aggGroups t cu) :
    getCell (aggregate cf t cu de q) (idxs.headD 0) "NEW QTY"
      = Cell.int (categories.foldl (fun acc cat => acc + groupCount cf
          (getColList (aggBase t cu) de) (getColList (aggBase t cu) q) idxs cat) 0) := by
  have ht3 : Rect (aggBase t cu) := aggBase_rect ht cu
  have hl3 := aggBase_rows_length t cu
  have ht4 := totalsFold_rect ht3 cf (getColList (aggBase t cu) de)
    (getColList (aggBase t cu) q) (aggGroups t cu)
  have ht5 := blankFold_rect ht4 cu (aggGroups t cu)
  have ht6 := setColConst_rect ht5 "NEW QTY" (Cell.str "")
  have hcat6 : ∀ cat ∈ categories,
      getCell (setColConst ((aggGroups t cu).foldl (blankGroup cu)
        ((aggGroups t cu).foldl (writeGroupTotals cf (getColList (aggBase t cu) de)
          (getColList (aggBase t cu) q)) (aggBase t cu)))
        "NEW QTY" (Cell.str "")) (idxs.headD 0) cat
      = Cell.int (groupCount cf (getColList (aggBase t cu) de)
          (getColList (aggBase t cu) q) idxs cat) := by
    intro cat hcat
    rw [getCell_setColConst_ne ht5 _ _ _ (cat_ne_newqty cat hcat),
      blankFold_frame_col _ (fun he => hcu (by rw [← he]; exact hcat)),
      totalsFold_hit (fun g h => h) (aggGroups_pairwise_keys t cu) ht3 hl3
        (aggBase_cats_mem t cu) hg hcat]
  rw [aggregate_eq, getCell_selectCols ?_ _ (by simp),
    newqtyFold_hit (fun g h => h) (aggGroups_pairwise_keys t cu) ht6
      (by rw [setColConst_rows_length, blankFold_rows_length, totalsFold_rows_length, hl3])
      (setColConst_mem_cols _ _ _) hg]
  · congr 1
    simp only [categories, List.foldl_cons, List.foldl_nil]
    rw [hcat6 "BAC-I" (by simp [categories]), hcat6 "I-CAB" (by simp [categories]),
      hcat6 "I-CAB H" (by simp [categories]), hcat6 "I-CAB M" (by simp [categories]),
      hcat6 "BEAME" (by simp [categories])]
    simp [newQtyAdd]
  · rw [newqtyFold_rows_length, setColConst_rows_length, blankFold_rows_length,
      totalsFold_rows_length, hl3]
    exact agg_head_lt hg

theorem agg_out_newqty_tail (cf : Cell → Option String) (t : Table) (cu de q : String)
    (ht : Rect t) {k : Cell} {idxs : List Nat} (hg : (k, idxs) ∈ aggGroups t cu)
    {i : Nat} (hi : i ∈ idxs.tail) :
    getCell (aggregate cf t cu de q) i "NEW QTY" = Cell.str "" := by
  have ht3 : Rect (aggBase t cu) := aggBase_rect ht cu
  have hl3 := aggBase_rows_length t cu
  have ht4 := totalsFold_rect ht3 cf (getColList (aggBase t cu) de)
    (getColList (aggBase t cu) q) (aggGroups t cu)
  have ht5 := blankFold_rect ht4 cu (aggGroups t cu)
  have hilt : i < t.rows.length := agg_mem_lt hg (group_tail_mem hg hi)
  rw [aggregate_eq, getCell_selectCols ?_ _ (by simp),
    newqtyFold_frame_row (tail_ne_heads hg hi) _,
    getCell_setColConst_same ht5 ?_ _ _]
  · rw [blankFold_rows_length, totalsFold_rows_length, hl3]
    exact hilt
  · rw [newqtyFold_rows_length, setColConst_rows_length, blankFold_rows_length,
      totalsFold_rows_length, hl3]
    exact hilt

theorem agg_out_cu_head (cf : Cell → Option String) (t : Table) (cu de q : String)
    (ht : Rect t) (hcu : cu ∉ categories) (hcune : cu ≠ "NEW QTY")
    {k : Cell} {idxs : List Nat} (hg : (k, idxs) ∈ aggGroups t cu) :
    getCell (aggregate cf t cu de q) (idxs.headD 0) cu = k := by
  have ht3 : Rect (aggBase t cu) := aggBase_rect ht cu
  have hl3 := aggBase_rows_length t cu
  have ht4 := totalsFold_rect ht3 cf (getColList (aggBase t cu) de)
    (getColList (aggBase t cu) q) (aggGroups t cu)
  have ht5 := blankFold_rect ht4 cu (aggGroups t cu)
  rw [aggregate_eq, getCell_selectCols ?_ _ (by simp),
    newqtyFold_frame_col _ hcune,
    getCell_setColConst_ne ht5 _ _ _ hcune,
    blankFold_frame_row (head_not_in_tails hg) _,
    totalsFold_frame_col _ hcu,
    getCell_aggBase_cu ht hcu (agg_head_lt hg)]
  · exact (group_head_filled hg).2
  · rw [newqtyFold_rows_length, setColConst_rows_length, blankFold_rows_length,
      totalsFold_rows_length, hl3]
    exact agg_head_lt hg

theorem agg_out_cu_tail (cf : Cell → Option String) (t : Table) (cu de q : String)
    (ht : Rect t) (hcune : cu ≠ "NEW QTY") {k : Cell} {idxs : List Nat}
    (hg : (k, idxs) ∈ aggGroups t cu) {i : Nat} (hi : i ∈ idxs.tail) :
    getCell (aggregate cf t cu de q) i cu = Cell.str "" := by
  have ht3 : Rect (aggBase t cu) := aggBase_rect ht cu
  have hl3 := aggBase_rows_length t cu
  have ht4 := totalsFold_rect ht3 cf (getColList (aggBase t cu) de)
    (getColList (aggBase t cu) q) (aggGroups t cu)
  have hilt : i < t.rows.length := agg_mem_lt hg (group_tail_mem hg hi)
  rw [aggregate_eq, getCell_selectCols ?_ _ (by simp),
    newqtyFold_frame_col _ hcune,
    getCell_setColConst_ne (blankFold_rect ht4 cu (aggGroups t cu)) _ _ _ hcune]
  · refine blankFold_hit ht4 ?_ ?_ ⟨(k, idxs), hg, hi⟩
    · rw [totalsFold_cols]
      exact aggBase_cu_mem (cu_mem_cols_of_group hg)
    · rw [totalsFold_rows_length, hl3]
      exact hilt
  · rw [newqtyFold_rows_length, setColConst_rows_length, blankFold_rows_length,
      totalsFold_rows_length, hl3]
    exact hilt

theorem agg_out_notmem_cat (cf : Cell → Option String) (t : Table) (cu de q : String)
    (ht : Rect t) (hcu : cu ∉ categories) {i : Nat} (hi : i < t.rows.length)
    (hno : ∀ g ∈ aggGroups t cu, i ∉ g.2) {cat : String} (hcat : cat ∈ categories) :
    getCell (aggregate cf t cu de q) i cat = Cell.str "" := by
  have ht3 : Rect (aggBase t cu) := aggBase_rect ht cu
  have hl3 := aggBase_rows_length t cu
  have ht4 := totalsFold_rect ht3 cf (getColList (aggBase t cu) de)
    (getColList (aggBase t cu) q) (aggGroups t cu)
  have ht5 := blankFold_rect ht4 cu (aggGroups t cu)
  have hnames : cat ∈ [cu, de, q, "NEW QTY", "I-CAB", "BAC-I", "I-CAB H", "I-CAB M", "BEAME"] := by
    simp only [categories, List.mem_cons, List.not_mem_nil, or_false] at hcat
    rcases hcat with rfl | rfl | rfl | rfl | rfl <;> simp
  rw [aggregate_eq, getCell_selectCols ?_ _ hnames,
    newqtyFold_frame_col _ (cat_ne_newqty cat hcat),
    getCell_setColConst_ne ht5 _ _ _ (cat_ne_newqty cat hcat),
    blankFold_frame_row (fun g hg htl => hno g hg (List.mem_of_mem_tail htl)) _,
    totalsFold_frame (fun g hg he => hno g hg (by
      rw [he]
      rcases List.mem_map.mp hg with ⟨a, ha, rfl⟩
      exact headD_mem (group_idxs_ne_nil (List.mem_map.mpr ⟨a, ha, rfl⟩)))) _,
    getCell_aggBase_cat ht cu hi hcat]
  rw [newqtyFold_rows_length, setColConst_rows_length, blankFold_rows_length,
    totalsFold_rows_length, hl3]
  exact hi

theorem agg_out_notmem_cu (cf : Cell → Option String) (t : Table) (cu de q : String)
    (ht : Rect t) (hcu : cu ∉ categories) (hcune : cu ≠ "NEW QTY") {i : Nat}
    (hi : i < t.rows.length) (hno : ∀ g ∈ aggGroups t cu, i ∉ g.2) :
    getCell (aggregate cf t cu de q) i cu = (ffilledCustomer t cu).getD i Cell.blank := by
  have ht3 : Rect (aggBase t cu) := aggBase_rect ht cu
  have hl3 := aggBase_rows_length t cu
  have ht4 := totalsFold_rect ht3 cf (getColList (aggBase t cu) de)
    (getColList (aggBase t cu) q) (aggGroups t cu)
  have ht5 := blankFold_rect ht4 cu (aggGroups t cu)
  rw [aggregate_eq, getCell_selectCols ?_ _ (by simp),
    newqtyFold_frame_col _ hcune,
    getCell_setColConst_ne ht5 _ _ _ hcune,
    blankFold_frame_row (fun g hg htl => hno g hg (List.mem_of_mem_tail htl)) _,
    totalsFold_frame_col _ hcu,
    getCell_aggBase_cu ht hcu hi]
  rw [newqtyFold_rows_length, setColConst_rows_length, blankFold_rows_length,
    totalsFold_rows_length, hl3]
  exact hi

theorem agg_out_notmem_newqty (cf : Cell → Option String) (t : Table) (cu de q : String)
    (ht : Rect t) {i : Nat} (hi : i < t.rows.length)
    (hno : ∀ g ∈ aggGroups t cu, i ∉ g.2) :
    getCell (aggregate cf t cu de q) i "NEW QTY" = Cell.str "" := by
  have ht3 : Rect (aggBase t cu) := aggBase_rect ht cu
  have hl3 := aggBase_rows_length t cu
  have ht4 := totalsFold_rect ht3 cf (getColList (aggBase t cu) de)
    (getColList (aggBase t cu) q) (aggGroups t cu)
  have ht5 := blankFold_rect ht4 cu (aggGroups t cu)
  rw [aggregate_eq, getCell_selectCols ?_ _ (by simp),
    newqtyFold_frame_row (fun g hg he => hno g hg (by
      rw [he]
      rcases List.mem_map.mp hg with ⟨a, ha, rfl⟩
      exact headD_mem (group_idxs_ne_nil (List.mem_map.mpr ⟨a, ha, rfl⟩)))) _,
    getCell_setColConst_same ht5 ?_ _ _]
  · rw [blankFold_rows_length, totalsFold_rows_length, hl3]
    exact hi
  · rw [newqtyFold_rows_length, setColConst_rows_length, blankFold_rows_length,
      totalsFold_rows_length, hl3]
    exact hi

/-- C4: in every processed sheet and every customer group of it, the value
written into `NEW QTY` on the group's first row equals the integer sum of
the five category cells written on that same row (blank or non-numeric
cells counting as 0, per `toIntPy`), and `NEW QTY` holds the blank string
on every other row of the group.  The hypotheses are the frame of the
pipeline: the sheet is rectangular, and the resolved customer label is not
itself one of the five category names (guaranteed in the pipeline because a
customer label must contain the substring `customer`). -/
theorem C4_newqty_is_category_sum (cf : Cell → Option String) (t : Table)
    (cu de q : String) (ht : Rect t) (hcu : cu ∉ categories)
    (k : Cell) (idxs : List Nat) (hg : (k, idxs) ∈ aggGroups t cu) :
    getCell (aggregate cf t cu de q) (idxs.headD 0) "NEW QTY"
        = Cell.int (sumCats5 (aggregate cf t cu de q) (idxs.headD 0)) ∧
    (∀ i ∈ idxs.tail, getCell (aggregate cf t cu de q) i "NEW QTY" = Cell.str "") := by
  constructor
  · rw [agg_out_newqty_head cf t cu de q ht hcu hg]
    congr 1
    simp only [sumCats5, categories, List.foldl_cons, List.foldl_nil]
    rw [agg_out_cat cf t cu de q ht hcu hg (by simp [categories]),
      agg_out_cat cf t cu de q ht hcu hg (by simp [categories]),
      agg_out_cat cf t cu de q ht hcu hg (by simp [categories]),
      agg_out_cat cf t cu de q ht hcu hg (by simp [categories]),
      agg_out_cat cf t cu de q ht hcu hg (by simp [categories])]
    simp [toIntPy]
  · exact fun i hi => agg_out_newqty_tail cf t cu de q ht hg hi

/-- Witness for C4 on the concrete sheet `wTable`, whose group `A` has rows
0 and 1. -/
theorem C4_witness :
    getCell (aggregate classify_device_type wTable "Customer" "Device" "Qty")
        (([0, 1] : List Nat).headD 0) "NEW QTY"
      = Cell.int (sumCats5
          (aggregate classify_device_type wTable "Customer" "Device" "Qty")
          (([0, 1] : List Nat).headD 0)) ∧
    (∀ i ∈ ([0, 1] : List Nat).tail,
      getCell (aggregate classify_device_type wTable "Customer" "Device" "Qty") i "NEW QTY"
        = Cell.str "") :=
  C4_newqty_is_category_sum classify_device_type wTable "Customer" "Device" "Qty"
    (by unfold Rect; decide) (by decide) (Cell.str "A") [0, 1] (by decide)

/-- C5 (amended): for every customer group whose key is not the empty
string (and with more than one row, as the claim states), the group's first
row keeps its non-blank customer value after processing and every other row
of the group has the customer cell blanked to the empty string. -/
theorem C5_amended_first_row_keeps_label (cf : Cell → Option String) (t : Table)
    (cu de q : String) (ht : Rect t) (hcu : cu ∉ categories) (hcune : cu ≠ "NEW QTY")
    (k : Cell) (idxs : List Nat) (hg : (k, idxs) ∈ aggGroups t cu)
    (hk : k ≠ Cell.str "") (hN : 1 < idxs.length) :
    isBlankCell (getCell (aggregate cf t cu de q) (idxs.headD 0) cu) = false ∧
    getCell (aggregate cf t cu de q) (idxs.headD 0) cu = k ∧
    (∀ i ∈ idxs.tail, getCell (aggregate cf t cu de q) i cu = Cell.str "") := by
  have hhead := agg_out_cu_head cf t cu de q ht hcu hcune hg
  refine ⟨?_, hhead, fun i hi => agg_out_cu_tail cf t cu de q ht hcune hg hi⟩
  rw [hhead]
  have hnb : k ≠ Cell.blank := aggKeys_ne_blank (mem_aggGroups_iff.mp hg).1
  simp [isBlankCell, hnb, hk]

/-- Witness for C5 (amended) on `wTable`: the two-row group `A` keeps `A`
on row 0 and blanks row 1. -/
theorem C5_witness :
    isBlankCell (getCell (aggregate classify_device_type wTable "Customer" "Device" "Qty")
        (([0, 1] : List Nat).headD 0) "Customer") = false ∧
    getCell (aggregate classify_device_type wTable "Customer" "Device" "Qty")
        (([0, 1] : List Nat).headD 0) "Customer" = Cell.str "A" ∧
    (∀ i ∈ ([0, 1] : List Nat).tail,
      getCell (aggregate classify_device_type wTable "Customer" "Device" "Qty") i "Customer"
        = Cell.str "") :=
  C5_amended_first_row_keeps_label classify_device_type wTable "Customer" "Device" "Qty"
    (by unfold Rect; decide) (by decide) (by decide) (Cell.str "A") [0, 1] (by decide) (by decide)
    (by decide)

/-- C1 (amended): the aggregation groups rows by EQUAL forward-filled
customer value over the whole sheet, not by contiguous runs: a group's
index list is exactly every row index whose forward-filled customer equals
the key, the group's first row is the sheet-wide first occurrence of that
value, and the five category totals written there are the `groupCount`
sums over ALL of the group's rows, adjacent or not. -/
theorem C1_amended_value_grouping (cf : Cell → Option String) (t : Table)
    (cu de q : String) (ht : Rect t) (hcu : cu ∉ categories)
    (k : Cell) (idxs : List Nat) (hg : (k, idxs) ∈ aggGroups t cu) :
    (∀ i, i ∈ idxs ↔ i < t.rows.length ∧ (ffilledCustomer t cu).getD i Cell.blank = k) ∧
    (∀ i ∈ idxs, idxs.headD 0 ≤ i) ∧
    (∀ cat ∈ categories,
      getCell (aggregate cf t cu de q) (idxs.headD 0) cat
        = Cell.int (groupCount cf (getColList (aggBase t cu) de)
            (getColList (aggBase t cu) q) idxs cat)) := by
  refine ⟨?_, ?_, fun cat hcat => agg_out_cat cf t cu de q ht hcu hg hcat⟩
  · intro i
    rw [group_idxs_eq hg, mem_groupIdxsOf, ffilledCustomer_length]
  · intro i hi
    have hp := group_idxs_pairwise hg
    rcases idxs with _ | ⟨a, as⟩
    · cases hi
    · rcases List.mem_cons.mp hi with rfl | h2
      · simp
      · have := (List.pairwise_cons.mp hp).1 i h2
        simp only [List.headD_cons]
        omega

/-- Witness for C1 (amended) on `cexTable1`, whose two non-adjacent `A`
rows 0 and 2 form a single group. -/
theorem C1_witness :
    (∀ i, i ∈ ([0, 2] : List Nat) ↔ i < cexTable1.rows.length ∧
        (ffilledCustomer cexTable1 "Customer").getD i Cell.blank = Cell.str "A") ∧
    (∀ i ∈ ([0, 2] : List Nat), ([0, 2] : List Nat).headD 0 ≤ i) ∧
    (∀ cat ∈ categories,
      getCell (aggregate classify_device_type cexTable1 "Customer" "Device" "Qty")
          (([0, 2] : List Nat).headD 0) cat
        = Cell.int (groupCount classify_device_type
            (getColList (aggBase cexTable1 "Customer") "Device")
            (getColList (aggBase cexTable1 "Customer") "Qty") [0, 2] cat)) :=
  C1_amended_value_grouping classify_device_type cexTable1 "Customer" "Device" "Qty"
    (by unfold Rect; decide) (by decide) (Cell.str "A") [0, 2] (by decide)

/-- C10: rows before the first non-blank customer value belong to no
customer group: forward-fill leaves their customer cell NaN, `groupby`
drops the NaN key, so after processing their customer cell is still blank,
their five category cells and `NEW QTY` hold the blank string, and no
group's index list (over which the totals are summed) contains them. -/
theorem C10_leading_blank_rows (cf : Cell → Option String) (t : Table)
    (cu de q : String) (ht : Rect t) (hcu : cu ∉ categories) (hcune : cu ≠ "NEW QTY")
    (i : Nat) (hi : i < t.rows.length)
    (hlead : ∀ j, j ≤ i → (getColList t cu).getD j Cell.blank = Cell.blank) :
    (∀ k idxs, (k, idxs) ∈ aggGroups t cu → i ∉ idxs) ∧
    getCell (aggregate cf t cu de q) i cu = Cell.blank ∧
    (∀ cat ∈ categories, getCell (aggregate cf t cu de q) i cat = Cell.str "") ∧
    getCell (aggregate cf t cu de q) i "NEW QTY" = Cell.str "" := by
  have hfblank : (ffilledCustomer t cu).getD i Cell.blank = Cell.blank := by
    rw [ffilledCustomer]
    exact ffillGo_none_blank_lead hlead
  have hno : ∀ g ∈ aggGroups t cu, i ∉ g.2 := by
    rintro ⟨k, idxs⟩ hg hmem
    have h2 := (group_mem_filled hg hmem).2
    rw [hfblank] at h2
    exact aggKeys_ne_blank (mem_aggGroups_iff.mp hg).1 h2.symm
  refine ⟨fun k idxs hg => hno (k, idxs) hg, ?_, ?_, ?_⟩
  · rw [agg_out_notmem_cu cf t cu de q ht hcu hcune hi hno, hfblank]
  · exact fun cat hcat => agg_out_notmem_cat cf t cu de q ht hcu hi hno hcat
  · exact agg_out_notmem_newqty cf t cu de q ht hi hno

/-- Witness for C10 on `wTable10`, whose row 0 has a blank customer cell
before any customer value has appeared. -/
theorem C10_witness :
    (∀ k idxs, (k, idxs) ∈ aggGroups wTable10 "Customer" → 0 ∉ idxs) ∧
    getCell (aggregate classify_device_type wTable10 "Customer" "Device" "Qty") 0 "Customer"
      = Cell.blank ∧
    (∀ cat ∈ categories,
      getCell (aggregate classify_device_type wTable10 "Customer" "Device" "Qty") 0 cat
        = Cell.str "") ∧
    getCell (aggregate classify_device_type wTable10 "Customer" "Device" "Qty") 0 "NEW QTY"
      = Cell.str "" :=
  C10_leading_blank_rows classify_device_type wTable10 "Customer" "Device" "Qty"
    (by unfold Rect; decide) (by decide) (by decide) 0 (by decide)
    (fun j hj => by
      have hj0 : j = 0 := Nat.le_zero.mp hj
      subst hj0
      decide)
